import Mathlib

/-!
Shallow embedding of the Knucklebones solver core
(`src/board/board.rs`, `src/tree/tree.rs`, `src/solver/solver.rs`)
and verification of the specification claims about it.

Modelling conventions:
* Rust `u16`/`usize` values are modelled as `Nat` (all quantities involved are
  far below any overflow boundary: a board score is at most 162).
* Rust `i16` differences are modelled as `Int`.
* Rust `f32` evaluations are modelled exactly: finite values as `Rat`, and the
  special values `-inf`, `+inf`, `NaN` (which the evaluator's sentinel
  initialisation can produce on degenerate trees) by the dedicated
  `EvalValue` type whose arithmetic and comparisons follow IEEE-754 for the
  operations the code performs.  Rounding of `f32` arithmetic is idealised
  (exact rational arithmetic).
* Rust `Result<T, String>` is `Except String T`.  A Rust panic (out-of-bounds
  indexing, `.expect(..)` on an `Err`) is modelled either by an `Option`
  wrapper (`none` = panic) or, inside the evaluator, by an error string
  starting with "panic: " - the theorems below never rely on panic paths.
-/

namespace Knucklebones

/-- `Player` from board.rs. -/
inductive Player where
  | player1
  | player2
deriving DecidableEq, Repr

/-- `Player::opponent`. -/
def Player.opponent : Player → Player
  | .player1 => .player2
  | .player2 => .player1

/-- `Comparison` from board.rs. -/
inductive Comparison where
  | better
  | worse
  | equal
deriving DecidableEq, Repr

/-- `Die` from board.rs. -/
inductive Die where
  | one
  | two
  | three
  | four
  | five
  | six
deriving DecidableEq, Repr

/-- `Die::to_value`. -/
def Die.toValue : Die → Nat
  | .one => 1
  | .two => 2
  | .three => 3
  | .four => 4
  | .five => 5
  | .six => 6

/-- `Die::all`: all six dice in ascending order. -/
def Die.all : List Die :=
  [.one, .two, .three, .four, .five, .six]

/-- `Die::from_char`. -/
def Die.fromChar : Char → Except String Die
  | '1' => .ok .one
  | '2' => .ok .two
  | '3' => .ok .three
  | '4' => .ok .four
  | '5' => .ok .five
  | '6' => .ok .six
  | c => .error ("Invalid die character: " ++ String.singleton c)

/-- `Square` from board.rs. -/
inductive Square where
  | empty
  | die (d : Die)
deriving DecidableEq, Repr

/-- `Square::from_char`. -/
def Square.fromChar (c : Char) : Except String Square :=
  match c with
  | '_' => .ok .empty
  | c => (Die.fromChar c).map (fun x => Square.die x)

/-- `Move` from board.rs: a (row, column) pair of `usize`. -/
structure Move where
  row : Nat
  column : Nat
deriving DecidableEq, Repr

/-- `Move::to_string`: renders as "(row, column)". -/
def Move.toDisplayString (m : Move) : String :=
  "(" ++ Nat.repr m.row ++ ", " ++ Nat.repr m.column ++ ")"

/-- `Move::from_string`: strips whitespace, expects exactly two digit
characters in '0'..'2'. -/
def Move.fromString (s : String) : Except String Move :=
  let stripped := (s.toList.filter (fun c => !c.isWhitespace))
  if stripped.length != 2 then
    .error ("Invalid move string: " ++ s)
  else
    match stripped with
    | [cr, cc] =>
      match
        (match cr with
          | '0' => some 0
          | '1' => some 1
          | '2' => some 2
          | _ => none : Option Nat) with
      | none => .error ("Invalid move string: " ++ s)
      | some row =>
        match
          (match cc with
            | '0' => some 0
            | '1' => some 1
            | '2' => some 2
            | _ => none : Option Nat) with
        | none => .error ("Invalid move string: " ++ s)
        | some col => .ok { row := row, column := col }
    | _ => .error ("Invalid move string: " ++ s)

/-- One column of the board: the three squares at rows 0, 1, 2.
The Rust `Board` stores `Vec<Vec<Square>>`, always 3 columns of 3 squares
(`columns[col][row]`); we fix that shape structurally. -/
structure Col3 where
  r0 : Square
  r1 : Square
  r2 : Square
deriving DecidableEq, Repr

/-- `Board` from board.rs: three columns. -/
structure Board where
  c0 : Col3
  c1 : Col3
  c2 : Col3
deriving DecidableEq, Repr

/-- The empty column. -/
def Col3.empty : Col3 := ⟨.empty, .empty, .empty⟩

/-- `Board::empty`. -/
def Board.empty : Board := ⟨Col3.empty, Col3.empty, Col3.empty⟩

/-- `columns[col][row]` read access; `none` models the Rust index panic. -/
def Col3.row : Col3 → Nat → Option Square
  | c, 0 => some c.r0
  | c, 1 => some c.r1
  | c, 2 => some c.r2
  | _, _ => none

/-- Column access `columns[col]`; `none` models the Rust index panic. -/
def Board.col : Board → Nat → Option Col3
  | b, 0 => some b.c0
  | b, 1 => some b.c1
  | b, 2 => some b.c2
  | _, _ => none

/-- `board.columns[col][row]` (note the Rust index order: column first). -/
def Board.getCell (b : Board) (row colIdx : Nat) : Option Square :=
  (b.col colIdx).bind (fun c => c.row row)

/-- Write one square of a column; `none` models the Rust index panic. -/
def Col3.setRow : Col3 → Nat → Square → Option Col3
  | c, 0, s => some { c with r0 := s }
  | c, 1, s => some { c with r1 := s }
  | c, 2, s => some { c with r2 := s }
  | _, _, _ => none

/-- `board.columns[col][row] = s`; `none` models the Rust index panic. -/
def Board.setCell (b : Board) (row colIdx : Nat) (s : Square) : Option Board :=
  match colIdx with
  | 0 => (b.c0.setRow row s).map (fun c => { b with c0 := c })
  | 1 => (b.c1.setRow row s).map (fun c => { b with c1 := c })
  | 2 => (b.c2.setRow row s).map (fun c => { b with c2 := c })
  | _ => none

/-- `Board::get_elements`: the nine squares in column-major order. -/
def Board.getElements (b : Board) : List Square :=
  [b.c0.r0, b.c0.r1, b.c0.r2, b.c1.r0, b.c1.r1, b.c1.r2, b.c2.r0, b.c2.r1, b.c2.r2]

/-- `Board::is_full`: every square non-empty. -/
def Board.isFull (b : Board) : Bool :=
  b.getElements.all (fun s => s != Square.empty)

/-- Face value of a square, 0 when empty (the Rust loop in `Board::sum`
skips empty squares, which adds 0). -/
def Square.value : Square → Nat
  | .empty => 0
  | .die d => d.toValue

/-- Column sum of die face values (`column_sum` in `Board::sum` before the
multiplicity is applied). -/
def Col3.sumValues (c : Col3) : Nat :=
  c.r0.value + c.r1.value + c.r2.value

/-- `Board::get_column_multiplicity` for one column. -/
def Col3.multiplicity (c : Col3) : Nat :=
  if c.r0 ≠ Square.empty ∧ c.r0 = c.r1 ∧ c.r1 = c.r2 then 3
  else if (c.r0 ≠ Square.empty ∧ c.r0 = c.r1) ∨
          (c.r1 ≠ Square.empty ∧ c.r1 = c.r2) ∨
          (c.r0 ≠ Square.empty ∧ c.r0 = c.r2) then 2
  else 1

/-- `Board::sum`: total of column sums weighted by column multiplicities. -/
def Board.sum (b : Board) : Nat :=
  b.c0.sumValues * b.c0.multiplicity +
  b.c1.sumValues * b.c1.multiplicity +
  b.c2.sumValues * b.c2.multiplicity

/-- `Board::is_set`. -/
def Board.isSet (b : Board) (row colIdx : Nat) : Option Bool :=
  (b.getCell row colIdx).map (fun s => s != Square.empty)

/-- `Board::make_move` / `Board::with_move_made`.  The outer `Option` models
the Rust index panic on an out-of-range move (the occupancy check `is_set`
indexes first, so it panics before anything else on such a move). -/
def Board.withMoveMade (b : Board) (d : Die) (m : Move) :
    Option (Except String Board) :=
  match b.getCell m.row m.column with
  | none => none
  | some s =>
    if s != Square.empty then
      some (.error ("Square already set: " ++ m.toDisplayString))
    else
      match b.setCell m.row m.column (Square.die d) with
      | some b2 => some (.ok b2)
      | none => none

/-- `Board::eliminate` on one column: clear every square equal to `die d`. -/
def Col3.eliminate (c : Col3) (d : Die) : Col3 :=
  { r0 := if c.r0 = Square.die d then Square.empty else c.r0,
    r1 := if c.r1 = Square.die d then Square.empty else c.r1,
    r2 := if c.r2 = Square.die d then Square.empty else c.r2 }

/-- `Board::eliminate`; `none` models the Rust index panic on a column
index outside 0..2. -/
def Board.eliminate (b : Board) (d : Die) (colIdx : Nat) : Option Board :=
  match colIdx with
  | 0 => some { b with c0 := b.c0.eliminate d }
  | 1 => some { b with c1 := b.c1.eliminate d }
  | 2 => some { b with c2 := b.c2.eliminate d }
  | _ => none

/-- `Board::get_empty_squares`.  The Rust code iterates the columns,
pushing each empty square into a per-row bucket, then flattens the three
buckets: the result lists row 0's empty squares (in column order), then
row 1's, then row 2's. -/
def Board.getEmptySquares (b : Board) : List (Nat × Nat) :=
  ((if b.c0.r0 = Square.empty then [(0, 0)] else []) ++
   (if b.c1.r0 = Square.empty then [(0, 1)] else []) ++
   (if b.c2.r0 = Square.empty then [(0, 2)] else [])) ++
  ((if b.c0.r1 = Square.empty then [(1, 0)] else []) ++
   (if b.c1.r1 = Square.empty then [(1, 1)] else []) ++
   (if b.c2.r1 = Square.empty then [(1, 2)] else [])) ++
  ((if b.c0.r2 = Square.empty then [(2, 0)] else []) ++
   (if b.c1.r2 = Square.empty then [(2, 1)] else []) ++
   (if b.c2.r2 = Square.empty then [(2, 2)] else []))

/-- `Board::get_n_empty_squares`. -/
def Board.getNEmptySquares (b : Board) : Nat :=
  b.getEmptySquares.length

/-- The first empty row of one column (the inner loop of
`get_empty_squares_up_to_row_symmetry` breaks at the first empty square). -/
def Col3.firstEmpty (c : Col3) (colIdx : Nat) : List (Nat × Nat) :=
  if c.r0 = Square.empty then [(0, colIdx)]
  else if c.r1 = Square.empty then [(1, colIdx)]
  else if c.r2 = Square.empty then [(2, colIdx)]
  else []

/-- `Board::get_empty_squares_up_to_row_symmetry`: at most one empty square
per column, in column order. -/
def Board.getEmptySquaresUpToRowSymmetry (b : Board) : List (Nat × Nat) :=
  b.c0.firstEmpty 0 ++ b.c1.firstEmpty 1 ++ b.c2.firstEmpty 2

/-- `NodeType` from tree.rs. -/
inductive NodeType where
  | roll (p : Player)
  | move (p : Player) (d : Die)
deriving DecidableEq, Repr

/-- `Node` from tree.rs: the two boards, the node kind, and the expanded
children. -/
inductive Node where
  | mk (player1Board : Board) (player2Board : Board)
       (nodeType : NodeType) (children : List Node)
deriving Repr

/-- Field accessor: `player_1_board`. -/
def Node.player1Board : Node → Board
  | .mk b _ _ _ => b

/-- Field accessor: `player_2_board`. -/
def Node.player2Board : Node → Board
  | .mk _ b _ _ => b

/-- Field accessor: `node_type`. -/
def Node.nodeType : Node → NodeType
  | .mk _ _ t _ => t

/-- Field accessor: `children`. -/
def Node.children : Node → List Node
  | .mk _ _ _ cs => cs

/-- `Node::new`: children start empty. -/
def Node.new (b1 b2 : Board) (t : NodeType) : Node :=
  .mk b1 b2 t []

/-- `Node::empty`. -/
def Node.empty : Node :=
  Node.new Board.empty Board.empty (.roll .player1)

/-- `Node::from_player_and_boards`. -/
def Node.fromPlayerAndBoards (activePlayer : Player)
    (activePlayersBoard opponentsBoard : Board) (t : NodeType) : Node :=
  match activePlayer with
  | .player1 => Node.new activePlayersBoard opponentsBoard t
  | .player2 => Node.new opponentsBoard activePlayersBoard t

/-- `Node::get_player_board`. -/
def Node.getPlayerBoard (n : Node) : Player → Board
  | .player1 => n.player1Board
  | .player2 => n.player2Board

/-- `Node::get_active_player`. -/
def Node.getActivePlayer (n : Node) : Player :=
  match n.nodeType with
  | .roll p => p
  | .move p _ => p

/-- `Node::get_n_empty_squares` (both boards). -/
def Node.getNEmptySquares (n : Node) : Nat :=
  n.player1Board.getNEmptySquares + n.player2Board.getNEmptySquares

/-- `Node::equals_up_to_children`: boards and node type, children ignored. -/
def Node.equalsUpToChildren (n other : Node) : Bool :=
  n.player1Board = other.player1Board &&
  n.player2Board = other.player2Board &&
  n.nodeType = other.nodeType

/-- `Node::is_game_over`: either board full. -/
def Node.isGameOver (n : Node) : Bool :=
  n.player1Board.isFull || n.player2Board.isFull

/-- `Node::is_leaf`. -/
def Node.isLeaf (n : Node) : Bool :=
  n.children.length = 0

/-- `Node::get_n_children`. -/
def Node.getNChildren (n : Node) : Nat :=
  n.children.length

/-- `Node::get_legal_moves`: the empty squares of the active player's board,
as moves; fails on a Roll node. -/
def Node.getLegalMoves (n : Node) : Except String (List Move) :=
  match n.nodeType with
  | .roll _ => .error "Cannot get legal moves from a roll node"
  | .move p _ =>
    .ok ((n.getPlayerBoard p).getEmptySquares.map
      (fun sq => Move.mk sq.1 sq.2))

/-- `Node::get_legal_moves_up_to_row_symmetry`; fails on a Roll node. -/
def Node.getLegalMovesUpToRowSymmetry (n : Node) : Except String (List Move) :=
  match n.nodeType with
  | .roll _ => .error "Cannot get legal moves from a roll node"
  | .move p _ =>
    .ok ((n.getPlayerBoard p).getEmptySquaresUpToRowSymmetry.map
      (fun sq => Move.mk sq.1 sq.2))

/-- `Node::is_legal_move`: `false` on a Roll node, otherwise membership in
the legal move list. -/
def Node.isLegalMove (n : Node) (m : Move) : Bool :=
  match n.nodeType with
  | .roll _ => false
  | .move _ _ =>
    match n.getLegalMoves with
    | .error _ => false
    | .ok moves => moves.contains m

/-- `Node::get_scores`. -/
def Node.getScores (n : Node) : Nat × Nat :=
  (n.player1Board.sum, n.player2Board.sum)

/-- `Node::get_score_difference` (an `i16` in Rust; scores are at most 162,
so no overflow). -/
def Node.getScoreDifference (n : Node) : Int :=
  (n.player1Board.sum : Int) - (n.player2Board.sum : Int)

/-- `Node::with_move_made`: apply a move from a Move node, giving the
successor Roll node.  The outer `Option` models the board-indexing panic on
an out-of-range move. -/
def Node.withMoveMade (n : Node) (m : Move) : Option (Except String Node) :=
  match n.nodeType with
  | .roll _ => some (.error "Cannot make a move from a roll node")
  | .move player die =>
    let nextPlayer := player.opponent
    match (n.getPlayerBoard player).withMoveMade die m with
    | none => none
    | some (.error e) => some (.error e)
    | some (.ok currentPlayersBoard) =>
      match (n.getPlayerBoard nextPlayer).eliminate die m.column with
      | none => none
      | some nextPlayersBoard =>
        some (.ok (Node.fromPlayerAndBoards nextPlayer nextPlayersBoard
          currentPlayersBoard (.roll nextPlayer)))

/-- `Node::add_rolls`: on a Roll node, append the six Move children (same
boards, one per die face, ascending); fails on a Move node.  The Rust method
mutates `self`; we return the updated node. -/
def Node.addRolls (n : Node) : Except String Node :=
  match n with
  | .mk b1 b2 (.roll player) cs =>
    .ok (.mk b1 b2 (.roll player)
      (cs ++ Die.all.map (fun die =>
        Node.fromPlayerAndBoards player
          ((Node.mk b1 b2 (.roll player) cs).getPlayerBoard player)
          ((Node.mk b1 b2 (.roll player) cs).getPlayerBoard player.opponent)
          (.move player die))))
  | .mk _ _ (.move _ _) _ => .error "Cannot add rolls to a move node"

/-- `Node::add_move`: append the successor of one move as a child; fails on
a Roll node or an illegal move.  `none` models the indexing panic of an
out-of-range move. -/
def Node.addMove (n : Node) (nextMove : Move) : Option (Except String Node) :=
  match n.nodeType with
  | .roll _ => some (.error "Cannot add move to a roll node")
  | .move _ _ =>
    match n.withMoveMade nextMove with
    | none => none
    | some (.error e) => some (.error e)
    | some (.ok child) =>
      some (.ok (.mk n.player1Board n.player2Board n.nodeType
        (n.children ++ [child])))

/-- `Node::generate_children_up_to_symmetry`.  On a Roll node this is
`add_rolls` (which cannot fail there); on a Move node it adds one child per
legal move up to row symmetry (each `add_move` succeeds because the moves
are legal; a failure would be a Rust panic and is dropped here, which is
unreachable). -/
def Node.generateChildrenUpToSymmetry (n : Node) : Node :=
  match n with
  | .mk b1 b2 (.roll player) cs =>
    .mk b1 b2 (.roll player)
      (cs ++ Die.all.map (fun die =>
        Node.fromPlayerAndBoards player
          ((Node.mk b1 b2 (.roll player) cs).getPlayerBoard player)
          ((Node.mk b1 b2 (.roll player) cs).getPlayerBoard player.opponent)
          (.move player die)))
  | .mk b1 b2 (.move player die) cs =>
    let n0 : Node := .mk b1 b2 (.move player die) cs
    let legalMoves :=
      (n0.getPlayerBoard player).getEmptySquaresUpToRowSymmetry.map
        (fun sq => Move.mk sq.1 sq.2)
    .mk b1 b2 (.move player die)
      (cs ++ legalMoves.filterMap (fun m =>
        match n0.withMoveMade m with
        | some (.ok child) => some child
        | _ => none))

/-- `1` on Roll nodes, `0` on Move nodes; only used in the termination
measure of the tree builder (rolls do not consume depth budget, so the
measure is `2 * n` plus this bit). -/
def Node.rollBit (n : Node) : Nat :=
  match n.nodeType with
  | .roll _ => 1
  | .move _ _ => 0

/-- `Node::build_n_moves_up_to_symmetry`: stop on terminal nodes; on a Move
node with budget 0 stop, otherwise expand and recurse with budget − 1; on a
Roll node always expand and recurse with the same budget. -/
def Node.buildNMovesUpToSymmetry : Node → Nat → Node
  | .mk b1 b2 (.roll p) cs, k =>
    if (Node.mk b1 b2 (.roll p) cs).isGameOver then .mk b1 b2 (.roll p) cs
    else
      .mk b1 b2 (.roll p)
        (((Node.mk b1 b2 (.roll p) cs).generateChildrenUpToSymmetry).children.attach.map
          (fun c => Node.buildNMovesUpToSymmetry c.1 k))
  | .mk b1 b2 (.move p d) cs, k =>
    if (Node.mk b1 b2 (.move p d) cs).isGameOver then .mk b1 b2 (.move p d) cs
    else if h : k = 0 then .mk b1 b2 (.move p d) cs
    else
      .mk b1 b2 (.move p d)
        (((Node.mk b1 b2 (.move p d) cs).generateChildrenUpToSymmetry).children.attach.map
          (fun c => Node.buildNMovesUpToSymmetry c.1 (k - 1)))
termination_by n k => (2 * k + n.rollBit, sizeOf n)
decreasing_by
  · have hc := c.2
    have hbit : (c : Node).rollBit ≤ 1 := by
      unfold Node.rollBit; split <;> simp
    have hR : (Node.mk b1 b2 (.roll p) cs).rollBit = 1 := rfl
    simp only [Node.generateChildrenUpToSymmetry, Node.children] at hc
    rcases List.mem_append.1 hc with h1 | h1
    · have hs : sizeOf (c : Node) < sizeOf cs := List.sizeOf_lt_of_mem h1
      rcases Nat.lt_or_ge (c : Node).rollBit 1 with hb | hb
      · exact Prod.Lex.left _ _ (by omega)
      · have hbe : 2 * k + (c : Node).rollBit
            = 2 * k + (Node.mk b1 b2 (.roll p) cs).rollBit := by omega
        rw [hbe]
        refine Prod.Lex.right _ ?_
        have hcs : sizeOf cs < sizeOf (Node.mk b1 b2 (.roll p) cs) := by
          simp
        omega
    · obtain ⟨die, -, hce⟩ := List.mem_map.1 h1
      have hz : (c : Node).rollBit = 0 := by
        rw [← hce]; cases p <;> rfl
      exact Prod.Lex.left _ _ (by omega)
  · have hbit : (c : Node).rollBit ≤ 1 := by
      unfold Node.rollBit; split <;> simp
    have hM : (Node.mk b1 b2 (.move p d) cs).rollBit = 0 := rfl
    exact Prod.Lex.left _ _ (by omega)

/-- The evaluation domain of the Rust `f32` evaluations: finite rationals
plus the IEEE special values that the evaluator's `±INFINITY` sentinels can
produce.  Arithmetic is exact (no rounding). -/
inductive EvalValue where
  | nan
  | ninf
  | pinf
  | fin (q : Rat)
deriving DecidableEq, Repr

/-- IEEE `==` on evaluations: `NaN` compares unequal to everything. -/
def EvalValue.ieeeEq : EvalValue → EvalValue → Bool
  | .nan, _ => false
  | _, .nan => false
  | .ninf, .ninf => true
  | .pinf, .pinf => true
  | .fin a, .fin b => a == b
  | _, _ => false

/-- IEEE `>` on evaluations. -/
def EvalValue.ieeeGt : EvalValue → EvalValue → Bool
  | .nan, _ => false
  | _, .nan => false
  | .pinf, .pinf => false
  | .pinf, _ => true
  | .fin _, .ninf => true
  | .fin a, .fin b => decide (a > b)
  | _, _ => false

/-- IEEE `<` on evaluations. -/
def EvalValue.ieeeLt : EvalValue → EvalValue → Bool
  | .nan, _ => false
  | _, .nan => false
  | .ninf, .ninf => false
  | .ninf, _ => true
  | .fin _, .pinf => true
  | .fin a, .fin b => decide (a < b)
  | _, _ => false

/-- IEEE `+` on evaluations (`inf + -inf = NaN`, `NaN` absorbs). -/
def EvalValue.add : EvalValue → EvalValue → EvalValue
  | .nan, _ => .nan
  | _, .nan => .nan
  | .ninf, .pinf => .nan
  | .pinf, .ninf => .nan
  | .ninf, _ => .ninf
  | _, .ninf => .ninf
  | .pinf, _ => .pinf
  | _, .pinf => .pinf
  | .fin a, .fin b => .fin (a + b)

/-- Division of an evaluation by a (positive) denominator.  The evaluator
divides by `child.get_n_children() as f32`, which is 6 whenever a division
is actually executed (the fold below never applies it over an empty list,
so the denominator-zero case of `Rat` division is never reached). -/
def EvalValue.divBy : EvalValue → Rat → EvalValue
  | .nan, _ => .nan
  | .ninf, _ => .ninf
  | .pinf, _ => .pinf
  | .fin a, q => .fin (a / q)

/-- `Player::compare_evaluation`: equality first, then the
player-directional strict comparison. -/
def Player.compareEvaluation (p : Player) (evaluation otherEvaluation : EvalValue) :
    Comparison :=
  if evaluation.ieeeEq otherEvaluation then .equal
  else match p with
    | .player1 => if evaluation.ieeeGt otherEvaluation then .better else .worse
    | .player2 => if evaluation.ieeeLt otherEvaluation then .better else .worse

/-- `Node::get_child` / `Node::get_child_from_move`: materialize the
expected successor, then locate the stored child by board/kind equality.
The outer `Option` models the indexing panic of an out-of-range move. -/
def Node.getChild (n : Node) (row colIdx : Nat) : Option (Except String Node) :=
  match n.withMoveMade (Move.mk row colIdx) with
  | none => none
  | some (.error e) => some (.error e)
  | some (.ok expectedNode) =>
    match n.children.find? (fun child => child.equalsUpToChildren expectedNode) with
    | some child => some (.ok child)
    | none => some (.error ("No child at row " ++ Nat.repr row ++
        " and column " ++ Nat.repr colIdx))

/-- `Node::get_child_from_move`. -/
def Node.getChildFromMove (n : Node) (m : Move) : Option (Except String Node) :=
  n.getChild m.row m.column

/-- Outcome of one iteration of the evaluator's move loop (tree.rs lines
201-225): either the early return taken when the child is terminal, or the
candidate evaluation of the move, or a panic of one of the `.expect(..)`
calls. -/
inductive StepResult where
  | early (moves : List Move) (value : EvalValue)
  | cand (value : EvalValue)
  | panic (e : String)
deriving Repr

/-- Extract the evaluations of a roll node's children; `none` when some
recursive call failed (which the Rust code turns into a panic via
`.expect(..)`). -/
def collectEvals : List (Except String (List Move × EvalValue)) →
    Option (List EvalValue)
  | [] => some []
  | .ok r :: rest => (collectEvals rest).map (fun vs => r.2 :: vs)
  | .error _ :: _ => none

/-- The body of the evaluator's move loop for one move `m`: look the child
up (`get_child_from_move`), early-return `([m], f(child))` when the child
is terminal, otherwise average the recursive evaluations of the child's
children.  `table` pairs each stored child with the recursive evaluations
of its children (in order), so that this function needs no recursion. -/
def Node.gnmeStep (f : Node → Rat) (n : Node)
    (table : List (Node × List (Except String (List Move × EvalValue))))
    (m : Move) : StepResult :=
  match n.withMoveMade m with
  | none => .panic "panic: board index out of range"
  | some (.error _) => .panic "panic: no child for an illegal move"
  | some (.ok expectedNode) =>
    match table.find? (fun ce => ce.1.equalsUpToChildren expectedNode) with
    | none => .panic "panic: no matching child"
    | some ce =>
      if ce.1.isGameOver then .early [m] (.fin (f ce.1))
      else
        match collectEvals ce.2 with
        | none => .panic "panic: child evaluation failed"
        | some vals =>
          let averageDenominator : Rat := (ce.1.children.length : Rat)
          .cand (vals.foldl
            (fun acc v => acc.add (v.divBy averageDenominator)) (.fin 0))

/-- The evaluator's move loop: fold the moves, keeping the best evaluation
and the list of tying moves, with the early return on a terminal child. -/
def Node.gnmeLoop (p : Player) (f : Node → Rat) (n : Node)
    (table : List (Node × List (Except String (List Move × EvalValue)))) :
    List Move → EvalValue → List Move → Except String (List Move × EvalValue)
  | [], best, acc => .ok (acc, best)
  | m :: ms, best, acc =>
    match Node.gnmeStep f n table m with
    | .early moves v => .ok (moves, v)
    | .panic e => .error e
    | .cand v =>
      match p.compareEvaluation v best with
      | .equal => Node.gnmeLoop p f n table ms best (acc ++ [m])
      | .better => Node.gnmeLoop p f n table ms v [m]
      | .worse => Node.gnmeLoop p f n table ms best acc

/-- `Node::get_next_moves_and_evaluation`.  Fails on a Roll node; on a leaf
returns `([], f(self))`; otherwise runs the move loop over the legal moves
up to row symmetry, starting from the `∓INFINITY` sentinel of the active
player. -/
def Node.getNextMovesAndEvaluation (f : Node → Rat) :
    Node → Except String (List Move × EvalValue)
  | .mk _ _ (.roll _) _ =>
    .error "Cannot get next moves and evaluation from a roll node"
  | .mk b1 b2 (.move player die) cs =>
    if cs.isEmpty then
      .ok ([], .fin (f (.mk b1 b2 (.move player die) cs)))
    else
      let n : Node := .mk b1 b2 (.move player die) cs
      let table := cs.attach.map (fun c =>
        (c.1, c.1.children.attach.map
          (fun g => Node.getNextMovesAndEvaluation f g.1)))
      let legalMoves :=
        (n.getPlayerBoard player).getEmptySquaresUpToRowSymmetry.map
          (fun sq => Move.mk sq.1 sq.2)
      let best0 : EvalValue :=
        match player with
        | .player1 => .ninf
        | .player2 => .pinf
      Node.gnmeLoop player f n table legalMoves best0 []
decreasing_by
  have h1 := List.sizeOf_lt_of_mem c.2
  have h2 : sizeOf (g : Node) < sizeOf (c : Node).children :=
    List.sizeOf_lt_of_mem g.2
  have h3 : sizeOf (c : Node).children < sizeOf (c : Node) := by
    rcases (c : Node) with ⟨a, b, t, l⟩
    simp [Node.children]
  simp only [Node.mk.sizeOf_spec]
  omega

/-- `Solver::difference_heuristic`: score difference plus the empty-square
tempo correction (terminal nodes get the raw difference). -/
def Solver.differenceHeuristic (node : Node) (emptySquareFill : Rat) : Rat :=
  let difference := node.getScoreDifference
  if node.isGameOver then (difference : Rat)
  else
    let player1EmptySquares : Rat := (node.player1Board.getNEmptySquares : Rat)
    let player2EmptySquares : Rat := (node.player2Board.getNEmptySquares : Rat)
    let finishingFirst :=
      if player1EmptySquares > player2EmptySquares then Player.player2
      else if player1EmptySquares < player2EmptySquares then Player.player1
      else node.getActivePlayer
    let finishingFirstBonus : Rat :=
      if node.getActivePlayer = finishingFirst then 1 else -1
    let emptySquareRawDifference :=
      match finishingFirst with
      | .player1 => player2EmptySquares - player1EmptySquares + finishingFirstBonus
      | .player2 => -(player1EmptySquares - player2EmptySquares + finishingFirstBonus)
    let emptySquareHeuristic := emptySquareRawDifference * emptySquareFill
    (difference : Rat) + emptySquareHeuristic

/-- Result of `Board::from_string`: `Ok`, `Err`, or a Rust panic
(out-of-bounds indexing when a line has more than three characters or there
are more than three lines). -/
inductive ParseResult where
  | ok (b : Board)
  | err (e : String)
  | panicked
deriving DecidableEq, Repr

/-- The inner loop of `Board::from_string` over the characters of one line:
decode each character (an invalid one is an `Err`), then write it at
`columns[col_n][row_n]` (an out-of-range index is a panic). -/
def Board.fromStringRow : Board → Nat → Nat → List Char → ParseResult ⊕ Board
  | b, _, _, [] => .inr b
  | b, rowN, colN, ch :: rest =>
    match Square.fromChar ch with
    | .error e => .inl (.err e)
    | .ok sq =>
      match b.setCell rowN colN sq with
      | none => .inl .panicked
      | some b2 => Board.fromStringRow b2 rowN (colN + 1) rest

/-- The outer loop of `Board::from_string` over the lines. -/
def Board.fromStringRows : Board → Nat → List (List Char) → ParseResult
  | b, _, [] => .ok b
  | b, rowN, row :: rest =>
    match Board.fromStringRow b rowN 0 row with
    | .inl r => r
    | .inr b2 => Board.fromStringRows b2 (rowN + 1) rest

/-- `Board::from_string`: strip spaces and tabs, split on newlines, then
fill the squares.  Note the Rust code performs no shape check: missing
lines or characters are silently left empty, while surplus ones panic on
the out-of-bounds write. -/
def Board.fromString (s : String) : ParseResult :=
  let stripped := s.toList.filter (fun c => !(c = ' ' || c = '\t'))
  Board.fromStringRows Board.empty 0 (stripped.splitOn '\n')

/-! ## Specification-side definitions

The definitions below transcribe the *specification's words* (they are only
used on the right-hand side of the refinement theorems; the operational
definitions above are the ones transcribed from the source). -/

/-- Spec §3, column multiplicity, as worded there: 3 when all three cells
are equal and non-empty; else 2 when any two cells in the column are equal
and non-empty; else 1. -/
def Col3.specMultiplicity (c : Col3) : Nat :=
  if c.r0 = c.r1 ∧ c.r1 = c.r2 ∧ c.r0 ≠ Square.empty then 3
  else if (c.r0 = c.r1 ∧ c.r0 ≠ Square.empty) ∨
          (c.r1 = c.r2 ∧ c.r1 ≠ Square.empty) ∨
          (c.r0 = c.r2 ∧ c.r0 ≠ Square.empty) then 2
  else 1

/-- Spec §3, board score: the sum over columns of (sum of die face values) ×
multiplicity. -/
def Board.specScore (b : Board) : Nat :=
  b.c0.sumValues * b.c0.specMultiplicity +
  b.c1.sumValues * b.c1.specMultiplicity +
  b.c2.sumValues * b.c2.specMultiplicity

/-- The claimed column-major empty-cell order ("for column 0 the empty
rows 0..2 in increasing order, then column 1, then column 2"). -/
def Board.specEmptyCellsColumnMajor (b : Board) : List (Nat × Nat) :=
  (([(0, 0), (1, 0), (2, 0), (0, 1), (1, 1), (2, 1), (0, 2), (1, 2), (2, 2)] :
      List (Nat × Nat)).filter
    (fun rc => b.getCell rc.1 rc.2 == some Square.empty))

/-- Amended empty-cell order, as the code computes it: grouped by row (row
0's empty cells in increasing column order, then row 1's, then row 2's). -/
def Board.specEmptyCellsRowGrouped (b : Board) : List (Nat × Nat) :=
  (([(0, 0), (0, 1), (0, 2), (1, 0), (1, 1), (1, 2), (2, 0), (2, 1), (2, 2)] :
      List (Nat × Nat)).filter
    (fun rc => b.getCell rc.1 rc.2 == some Square.empty))

/-- The legal moves of a node up to row symmetry, as a plain list (the
active player's `get_empty_squares_up_to_row_symmetry`, as moves).  Used to
state the evaluator claims; agrees with the `Except`-wrapped
`get_legal_moves_up_to_row_symmetry` on Move nodes. -/
def Node.legalMovesList (n : Node) : List Move :=
  (n.getPlayerBoard n.getActivePlayer).getEmptySquaresUpToRowSymmetry.map
    (fun sq => Move.mk sq.1 sq.2)

/-- The best of a non-empty list of evaluations for a player: maximum for
Player 1, minimum for Player 2 (spec §4.4). -/
def Player.foldBest (p : Player) (x : Rat) (xs : List Rat) : Rat :=
  xs.foldl (fun a b =>
    match p with
    | .player1 => max a b
    | .player2 => min a b) x

/-- The recursive evaluator value of spec §4.4 / claim C1: `f` at a leaf;
otherwise the active player's best candidate, where the candidate of a move
whose (stored) child is terminal is `f(child)`, and otherwise the
unweighted arithmetic mean of the recursive values of the child's roll
children.  (The fallbacks for a missing child or an empty legal-move list
are irrelevant: the claims hypothesise well-built non-degenerate trees.) -/
def Node.specValue (f : Node → Rat) : Node → Rat
  | .mk b1 b2 t cs =>
    if cs.isEmpty then f (.mk b1 b2 t cs)
    else
      let n : Node := .mk b1 b2 t cs
      let table : List (Node × Rat) := cs.attach.map (fun c =>
        (c.1,
         if c.1.isGameOver then f c.1
         else ((c.1.children.attach.map (fun g => Node.specValue f g.1)).sum) /
           ((c.1.children.length : Rat))))
      let cand : Move → Rat := fun m =>
        match n.withMoveMade m with
        | some (.ok e) =>
          match table.find? (fun ct => ct.1.equalsUpToChildren e) with
          | some ct => ct.2
          | none => 0
        | _ => 0
      match n.legalMovesList.map cand with
      | [] => f n
      | v :: vs => n.getActivePlayer.foldBest v vs
decreasing_by
  have h1 := List.sizeOf_lt_of_mem c.2
  have h2 : sizeOf (g : Node) < sizeOf (c : Node).children :=
    List.sizeOf_lt_of_mem g.2
  have h3 : sizeOf (c : Node).children < sizeOf (c : Node) := by
    rcases (c : Node) with ⟨a, b, t, l⟩
    simp [Node.children]
  simp only [Node.mk.sizeOf_spec]
  omega

/-- The candidate value of one legal move (claim C1): `f` of the stored
child when that child is terminal, else the unweighted arithmetic mean of
the recursive values of the child's roll children. -/
def Node.specCandidate (f : Node → Rat) (n : Node) (m : Move) : Rat :=
  match n.withMoveMade m with
  | some (.ok e) =>
    match n.children.find? (fun child => child.equalsUpToChildren e) with
    | some child =>
      if child.isGameOver then f child
      else ((child.children.map (Node.specValue f)).sum) /
        ((child.children.length : Rat))
    | none => 0
  | _ => 0

/-- The claimed evaluation: best candidate over the legal moves up to row
symmetry (maximum for Player 1, minimum for Player 2). -/
def Node.specBestValue (f : Node → Rat) (n : Node) : Rat :=
  match n.legalMovesList.map (n.specCandidate f) with
  | [] => 0
  | v :: vs => n.getActivePlayer.foldBest v vs

/-- The claimed best-move list: every legal move (up to row symmetry) whose
candidate attains the best value, in enumeration order. -/
def Node.specBestMoves (f : Node → Rat) (n : Node) : List Move :=
  n.legalMovesList.filter (fun m => n.specCandidate f m == n.specBestValue f)

/-- Spec §4.4 / claim C7, the heuristic as worded in the claim. -/
def specDifferenceHeuristic (node : Node) (k : Rat) : Rat :=
  let diff : Rat :=
    (((node.player1Board.sum : Int) - (node.player2Board.sum : Int) : Int) : Rat)
  if node.isGameOver then diff
  else
    let e1 := node.player1Board.getNEmptySquares
    let e2 := node.player2Board.getNEmptySquares
    let finishingFirst : Player :=
      if e1 > e2 then .player2
      else if e1 < e2 then .player1
      else node.getActivePlayer
    let bonus : Rat := if node.getActivePlayer = finishingFirst then 1 else -1
    let raw : Rat :=
      if finishingFirst = .player1 then (e2 : Rat) - (e1 : Rat) + bonus
      else -((e1 : Rat) - (e2 : Rat) + bonus)
    diff + k * raw

/-- A tree is *well built* when it is shaped the way the tree builders
(`generate_children_up_to_symmetry`, `build_n_moves_up_to_symmetry`,
`build_entire_tree_up_to_symmetry`) produce trees: terminal nodes are
leaves; an expanded Move node's children are exactly the successors of its
legal moves up to row symmetry, in order; an expanded Roll node has the six
Move children in die order; Move nodes may also be unexpanded leaves (depth
budget exhausted), Roll nodes may not. -/
def Node.wellBuilt : Node → Bool
  | .mk b1 b2 (.move p d) cs =>
    let n : Node := .mk b1 b2 (.move p d) cs
    cs.isEmpty ||
      (!n.isGameOver &&
       (n.legalMovesList.length == cs.length) &&
       (n.legalMovesList.zip cs.attach).all (fun mc =>
         (match n.withMoveMade mc.1 with
          | some (.ok e) => mc.2.1.equalsUpToChildren e
          | _ => false) &&
         Node.wellBuilt mc.2.1))
  | .mk b1 b2 (.roll p) cs =>
    let n : Node := .mk b1 b2 (.roll p) cs
    if n.isGameOver then cs.isEmpty
    else
      (cs.length == 6) &&
      (Die.all.zip cs.attach).all (fun dc =>
        dc.2.1.equalsUpToChildren (Node.mk b1 b2 (.move p dc.1) []) &&
        Node.wellBuilt dc.2.1)
decreasing_by
  · have h1 := List.sizeOf_lt_of_mem mc.2.2
    simp only [Node.mk.sizeOf_spec]
    omega
  · have h1 := List.sizeOf_lt_of_mem dc.2.2
    simp only [Node.mk.sizeOf_spec]
    omega

instance : Fintype Die :=
  ⟨⟨{.one, .two, .three, .four, .five, .six}, by decide⟩,
    fun x => by cases x <;> decide⟩

instance : Fintype Square :=
  ⟨⟨{.empty, .die .one, .die .two, .die .three, .die .four, .die .five, .die .six},
      by decide⟩,
    fun x => by
      cases x with
      | empty => decide
      | die d => cases d <;> decide⟩

instance : Fintype Col3 :=
  Fintype.ofEquiv (Square × Square × Square)
    { toFun := fun x => ⟨x.1, x.2.1, x.2.2⟩
      invFun := fun c => ⟨c.r0, c.r1, c.r2⟩
      left_inv := fun _ => rfl
      right_inv := fun _ => rfl }

/-! ## Concrete fixtures used by the witness theorems -/

/-- The board

    111
    111
    111

(score 27, full). -/
def onesBoard : Board :=
  ⟨⟨.die .one, .die .one, .die .one⟩, ⟨.die .one, .die .one, .die .one⟩,
   ⟨.die .one, .die .one, .die .one⟩⟩

/-- The board

    111
    111
    11_

(one empty square at row 2, column 2). -/
def nearlyOnesBoard : Board :=
  ⟨⟨.die .one, .die .one, .die .one⟩, ⟨.die .one, .die .one, .die .one⟩,
   ⟨.die .one, .die .one, .empty⟩⟩

/-- The board

    2__
    ___
    ___

(a single die 2 at row 0, column 0). -/
def twoBoard : Board :=
  ⟨⟨.die .two, .empty, .empty⟩, Col3.empty, Col3.empty⟩

/-! ## Helper lemmas -/

/-- Filtering a three-element list is the concatenation of the three
singleton-or-empty segments. -/
theorem filter_triple (p : Nat × Nat → Bool) (x y z : Nat × Nat) :
    List.filter p [x, y, z] =
      (if p x then [x] else []) ++ (if p y then [y] else []) ++
        (if p z then [z] else []) := by
  by_cases hx : p x <;> by_cases hy : p y <;> by_cases hz : p z <;>
    simp [List.filter, hx, hy, hz]

/-- A cell access that returns a square has in-range indices. -/
theorem Board.getCell_some_bounds {b : Board} {r c : Nat} {s : Square}
    (h : b.getCell r c = some s) : r < 3 ∧ c < 3 := by
  rcases c with _ | _ | _ | c
  case succ.succ.succ => simp [Board.getCell, Board.col] at h
  all_goals (
    rcases r with _ | _ | _ | r
    case succ.succ.succ => simp [Board.getCell, Board.col, Col3.row] at h
    all_goals omega)

/-- `setCell` writes exactly the target cell. -/
theorem Board.setCell_spec {b : Board} {row col : Nat} {s : Square} {b2 : Board}
    (h : b.setCell row col s = some b2) :
    ∀ r c, r < 3 → c < 3 →
      b2.getCell r c = if r = row ∧ c = col then some s else b.getCell r c := by
  rcases col with _ | _ | _ | col <;> rcases row with _ | _ | _ | row <;>
    simp [Board.setCell, Col3.setRow] at h <;>
    (subst h; intro r c hr hc; interval_cases r <;> interval_cases c <;>
      simp [Board.getCell, Board.col, Col3.row])

/-- `setCell` succeeds on in-range indices. -/
theorem Board.setCell_isSome {b : Board} {row col : Nat} (s : Square)
    (hr : row < 3) (hc : col < 3) : ∃ b2, b.setCell row col s = some b2 := by
  rcases col with _ | _ | _ | col <;> rcases row with _ | _ | _ | row <;>
    first
      | exact ⟨_, rfl⟩
      | omega

/-- `eliminate` clears exactly the matching dice of the target column. -/
theorem Board.eliminate_spec {b : Board} {d : Die} {ci : Nat} {b2 : Board}
    (h : b.eliminate d ci = some b2) :
    ∀ r c, r < 3 → c < 3 →
      b2.getCell r c =
        if c = ci ∧ b.getCell r c = some (Square.die d) then some Square.empty
        else b.getCell r c := by
  rcases ci with _ | _ | _ | ci <;> simp [Board.eliminate] at h <;>
    (subst h; intro r c hr hc; interval_cases r <;> interval_cases c <;>
      (simp [Board.getCell, Board.col, Col3.row, Col3.eliminate];
        try split_ifs <;> simp_all))

/-- `eliminate` succeeds on an in-range column index. -/
theorem Board.eliminate_isSome {b : Board} (d : Die) {ci : Nat} (hc : ci < 3) :
    ∃ b2, b.eliminate d ci = some b2 := by
  rcases ci with _ | _ | _ | ci <;> first
    | exact ⟨_, rfl⟩
    | omega

/-- `Board::with_move_made` on an empty target cell places the die there. -/
theorem Board.withMoveMade_empty {b : Board} (d : Die) {m : Move}
    (h : b.getCell m.row m.column = some Square.empty) :
    ∃ b2, b.withMoveMade d m = some (.ok b2) ∧
      b.setCell m.row m.column (Square.die d) = some b2 := by
  obtain ⟨hr, hc⟩ := Board.getCell_some_bounds h
  obtain ⟨b2, hb2⟩ := Board.setCell_isSome (Square.die d) hr hc
  refine ⟨b2, ?_, hb2⟩
  unfold Board.withMoveMade
  rw [h, hb2]
  simp

/-- `Board::with_move_made` on an occupied target cell fails. -/
theorem Board.withMoveMade_occupied {b : Board} (d : Die) {m : Move} {s : Square}
    (h : b.getCell m.row m.column = some s) (hs : s ≠ Square.empty) :
    b.withMoveMade d m =
      some (.error ("Square already set: " ++ m.toDisplayString)) := by
  unfold Board.withMoveMade
  rw [h]
  simp [hs]

set_option maxRecDepth 20000 in
set_option maxHeartbeats 1000000 in
/-- The two multiplicity definitions (code and spec wording) agree on all
343 columns. -/
theorem Col3.multiplicity_eq_spec : ∀ c : Col3, c.multiplicity = c.specMultiplicity := by
  decide

/-! ## Claim theorems -/

/-- C2 (counterexample): on the empty board, `get_empty_squares` does not
return the column-major order claimed ("for column 0 the empty rows 0..2 in
increasing order, then column 1, then column 2"); it starts
(0,0), (0,1), (0,2), … . -/
theorem c2_counterexample : Board.empty.getEmptySquares ≠
    [(0, 0), (1, 0), (2, 0), (0, 1), (1, 1), (2, 1), (0, 2), (1, 2), (2, 2)] := by
  decide

/-- C2 (amended): `get_empty_squares` returns the empty (row, column)
pairs grouped by row: row 0's empty cells in increasing column order, then
row 1's, then row 2's. -/
theorem c2_empty_squares_row_grouped :
    ∀ b : Board, b.getEmptySquares = b.specEmptyCellsRowGrouped := by
  intro b
  rcases b with ⟨⟨a0, a1, a2⟩, ⟨b0, b1, b2⟩, ⟨c0, c1, c2⟩⟩
  rw [Board.specEmptyCellsRowGrouped,
    show (([(0, 0), (0, 1), (0, 2), (1, 0), (1, 1), (1, 2), (2, 0), (2, 1), (2, 2)] :
        List (Nat × Nat)) =
      ([(0, 0), (0, 1), (0, 2)] ++ [(1, 0), (1, 1), (1, 2)]) ++
        [(2, 0), (2, 1), (2, 2)]) from rfl,
    List.filter_append, List.filter_append, filter_triple, filter_triple,
    filter_triple]
  simp only [Board.getEmptySquares, Board.getCell, Board.col, Col3.row,
    Option.some_bind, beq_iff_eq, Option.some.injEq]

/-- C3 (counterexample): the round trip fails already on the move (0, 0) -
`Move::to_string` renders "(0, 0)", which `Move::from_string` rejects
(after stripping whitespace it is 4 characters, not 2). -/
theorem c3_counterexample : Move.fromString (Move.toDisplayString (Move.mk 0 0)) ≠
    .ok (Move.mk 0 0) := by
  have h : Move.fromString (Move.toDisplayString (Move.mk 0 0)) =
      .error "Invalid move string: (0, 0)" := rfl
  rw [h]
  simp

/-- C3 (amended): for every move with row and column in {0,1,2},
`Move::from_string` of the bare two-digit string "rc" returns the move,
while `Move::from_string (Move::to_string M)` returns an
invalid-move-string error (so the claimed round trip through `to_string`
fails for every move). -/
theorem c3_move_string_round_trip : ∀ r c : Nat, r < 3 → c < 3 →
    Move.fromString (Nat.repr r ++ Nat.repr c) = .ok (Move.mk r c) ∧
    Move.fromString (Move.toDisplayString (Move.mk r c)) =
      .error ("Invalid move string: " ++ Move.toDisplayString (Move.mk r c)) := by
  intro r c hr hc
  interval_cases r <;> interval_cases c <;> exact ⟨rfl, rfl⟩

/-- C3 (witness): the amended theorem at row 1, column 2. -/
theorem c3_move_string_round_trip_witness :
    (1 : Nat) < 3 ∧ (2 : Nat) < 3 ∧
    (Move.fromString (Nat.repr 1 ++ Nat.repr 2) = .ok (Move.mk 1 2) ∧
     Move.fromString (Move.toDisplayString (Move.mk 1 2)) =
       .error ("Invalid move string: " ++ Move.toDisplayString (Move.mk 1 2))) :=
  ⟨by decide, by decide, c3_move_string_round_trip 1 2 (by decide) (by decide)⟩

/-- C4 (code bug): `Board::from_string` performs no shape check at all.
A first line of four underscores makes the write `columns[3][0]` panic
(index out of bounds) instead of returning an error value, and the
single-character input "_" (wrong shape: one line of one character) is
accepted as the empty board instead of being rejected. -/
theorem c4_parser_shape_bug :
    Board.fromString "____\n___\n___" = .panicked ∧
    Board.fromString "_" = .ok Board.empty := ⟨rfl, rfl⟩

/-- C5: applying move m from a Move node `Move(p, d)` with the target cell
of p's board empty yields a `Roll(p.opponent)` node (with no children)
whose active-player board is the old one with d placed at (row, col) and
whose opponent board is the old opponent board with every die of value d
in column col cleared and all other cells unchanged; with the target cell
occupied, it fails with the square-occupied error. -/
theorem c5_with_move_made (b1 b2 : Board) (p : Player) (d : Die) (cs : List Node)
    (m : Move) (s : Square)
    (hs : ((Node.mk b1 b2 (.move p d) cs).getPlayerBoard p).getCell m.row m.column
      = some s) :
    (s = Square.empty →
      ∃ child, (Node.mk b1 b2 (.move p d) cs).withMoveMade m = some (.ok child) ∧
        child.nodeType = .roll p.opponent ∧
        child.children = [] ∧
        (∀ r c, r < 3 → c < 3 →
          (child.getPlayerBoard p).getCell r c =
            (if r = m.row ∧ c = m.column then some (Square.die d)
             else ((Node.mk b1 b2 (.move p d) cs).getPlayerBoard p).getCell r c)) ∧
        (∀ r c, r < 3 → c < 3 →
          (child.getPlayerBoard p.opponent).getCell r c =
            (if c = m.column ∧
                ((Node.mk b1 b2 (.move p d) cs).getPlayerBoard p.opponent).getCell r c
                  = some (Square.die d)
             then some Square.empty
             else ((Node.mk b1 b2 (.move p d) cs).getPlayerBoard p.opponent).getCell
               r c))) ∧
    (s ≠ Square.empty →
      (Node.mk b1 b2 (.move p d) cs).withMoveMade m =
        some (.error ("Square already set: " ++ m.toDisplayString))) := by
  constructor
  · intro hse
    subst hse
    obtain ⟨bAct, hAct, hSet⟩ := Board.withMoveMade_empty d hs
    obtain ⟨hrow, hcol⟩ := Board.getCell_some_bounds hs
    obtain ⟨bOpp, hOpp⟩ := Board.eliminate_isSome
      (b := (Node.mk b1 b2 (.move p d) cs).getPlayerBoard p.opponent) d hcol
    refine ⟨Node.fromPlayerAndBoards p.opponent bOpp bAct (.roll p.opponent),
      ?_, ?_, ?_, ?_, ?_⟩
    · unfold Node.withMoveMade
      simp only [Node.nodeType]
      rw [hAct, hOpp]
    · cases p <;> rfl
    · cases p <;> rfl
    · have hb : (Node.fromPlayerAndBoards p.opponent bOpp bAct
          (.roll p.opponent)).getPlayerBoard p = bAct := by cases p <;> rfl
      rw [hb]
      exact fun r c hr hc => Board.setCell_spec hSet r c hr hc
    · have hb : (Node.fromPlayerAndBoards p.opponent bOpp bAct
          (.roll p.opponent)).getPlayerBoard p.opponent = bOpp := by cases p <;> rfl
      rw [hb]
      exact fun r c hr hc => Board.eliminate_spec hOpp r c hr hc
  · intro hsne
    unfold Node.withMoveMade
    simp only [Node.nodeType]
    rw [Board.withMoveMade_occupied d hs hsne]

/-- C5 (witness): Player 1 places a 6 at (1, 1) on the board `twoBoard`
(whose cell (1, 1) is empty); the successor is a `Roll(Player2)` node. -/
theorem c5_with_move_made_witness :
    ((Node.mk twoBoard Board.empty (.move .player1 .six) []).getPlayerBoard
        .player1).getCell 1 1 = some Square.empty ∧
    ∃ child, (Node.mk twoBoard Board.empty (.move .player1 .six) []).withMoveMade
        (Move.mk 1 1) = some (.ok child) ∧
      child.nodeType = .roll Player.player2 := by
  refine ⟨rfl, ?_⟩
  obtain ⟨child, h1, h2, -⟩ :=
    (c5_with_move_made twoBoard Board.empty .player1 .six [] (Move.mk 1 1)
      Square.empty rfl).1 rfl
  exact ⟨child, h1, by simpa [Player.opponent] using h2⟩

/-- C6: `Board::sum` equals the specification's board score - the sum over
columns of (sum of die face values) × multiplicity, with multiplicity 3
when all three cells are equal and non-empty, else 2 when any two cells of
the column are equal and non-empty, else 1. -/
theorem c6_board_score : ∀ b : Board, b.sum = b.specScore := by
  intro b
  unfold Board.sum Board.specScore
  rw [Col3.multiplicity_eq_spec b.c0, Col3.multiplicity_eq_spec b.c1,
    Col3.multiplicity_eq_spec b.c2]

/-- C7: `difference_heuristic` computes exactly the claimed value: the
score difference at terminal nodes, and otherwise the difference plus
k · raw with the claimed finishing-first / bonus / raw definitions. -/
theorem c7_difference_heuristic : ∀ (node : Node) (k : Rat),
    Solver.differenceHeuristic node k = specDifferenceHeuristic node k := by
  intro node k
  unfold Solver.differenceHeuristic specDifferenceHeuristic
  by_cases hg : node.isGameOver
  · simp [hg, Node.getScoreDifference]
  · by_cases h1 : node.player1Board.getNEmptySquares > node.player2Board.getNEmptySquares
    · have h1q : ((node.player1Board.getNEmptySquares : Rat) >
          (node.player2Board.getNEmptySquares : Rat)) := by exact_mod_cast h1
      simp [hg, h1, h1q, Node.getScoreDifference]
      ring
    · have h1q : ¬ ((node.player1Board.getNEmptySquares : Rat) >
          (node.player2Board.getNEmptySquares : Rat)) := by exact_mod_cast h1
      by_cases h2 : node.player1Board.getNEmptySquares < node.player2Board.getNEmptySquares
      · have h2q : ((node.player1Board.getNEmptySquares : Rat) <
            (node.player2Board.getNEmptySquares : Rat)) := by exact_mod_cast h2
        simp [hg, h1, h2, h1q, h2q, Node.getScoreDifference]
        ring
      · have h2q : ¬ ((node.player1Board.getNEmptySquares : Rat) <
            (node.player2Board.getNEmptySquares : Rat)) := by exact_mod_cast h2
        rcases hap : node.getActivePlayer <;>
          simp [hg, h1, h2, h1q, h2q, hap, Node.getScoreDifference] <;> ring

/-- C8: `build_n_moves_up_to_symmetry` leaves terminal nodes unchanged for
every budget; leaves a non-terminal Move node unchanged at budget 0; at
budget k ≠ 0 expands a non-terminal Move node up to row symmetry and
recurses on every child with k − 1; and always expands a non-terminal Roll
node (adding all six roll children), recursing on every child with the
same budget. -/
theorem c8_build_n_moves :
    (∀ (n : Node) (k : Nat), n.isGameOver = true →
      n.buildNMovesUpToSymmetry k = n) ∧
    (∀ (b1 b2 : Board) (p : Player) (d : Die) (cs : List Node),
      (Node.mk b1 b2 (.move p d) cs).isGameOver = false →
      (Node.mk b1 b2 (.move p d) cs).buildNMovesUpToSymmetry 0 =
        Node.mk b1 b2 (.move p d) cs) ∧
    (∀ (b1 b2 : Board) (p : Player) (d : Die) (cs : List Node) (k : Nat),
      (Node.mk b1 b2 (.move p d) cs).isGameOver = false → k ≠ 0 →
      (Node.mk b1 b2 (.move p d) cs).buildNMovesUpToSymmetry k =
        Node.mk b1 b2 (.move p d)
          (((Node.mk b1 b2 (.move p d) cs).generateChildrenUpToSymmetry).children.map
            (fun c => c.buildNMovesUpToSymmetry (k - 1)))) ∧
    (∀ (b1 b2 : Board) (p : Player) (cs : List Node) (k : Nat),
      (Node.mk b1 b2 (.roll p) cs).isGameOver = false →
      (Node.mk b1 b2 (.roll p) cs).buildNMovesUpToSymmetry k =
        Node.mk b1 b2 (.roll p)
          (((Node.mk b1 b2 (.roll p) cs).generateChildrenUpToSymmetry).children.map
            (fun c => c.buildNMovesUpToSymmetry k))) := by
  refine ⟨?_, ?_, ?_, ?_⟩
  · intro n k h
    rcases n with ⟨b1, b2, t, cs⟩
    rcases t with p | ⟨p, d⟩ <;>
      · rw [Node.buildNMovesUpToSymmetry]
        simp [h]
  · intro b1 b2 p d cs h
    rw [Node.buildNMovesUpToSymmetry]
    simp [h]
  · intro b1 b2 p d cs k h hk
    rw [Node.buildNMovesUpToSymmetry]
    simp [h, hk, List.attach_map_val]
  · intro b1 b2 p cs k h
    rw [Node.buildNMovesUpToSymmetry]
    simp [h, List.attach_map_val]

/-- C8 (witness): the four cases of the builder theorem at concrete
nodes - a terminal Move node, a non-terminal Move node at budgets 0 and 1,
and a non-terminal Roll node at budget 0. -/
theorem c8_build_n_moves_witness :
    ((Node.mk onesBoard Board.empty (.move .player1 .one) []).isGameOver = true ∧
     (Node.mk onesBoard Board.empty (.move .player1 .one) []).buildNMovesUpToSymmetry 3 =
       Node.mk onesBoard Board.empty (.move .player1 .one) []) ∧
    ((Node.mk twoBoard Board.empty (.move .player2 .five) []).isGameOver = false ∧
     (Node.mk twoBoard Board.empty (.move .player2 .five) []).buildNMovesUpToSymmetry 0 =
       Node.mk twoBoard Board.empty (.move .player2 .five) []) ∧
    ((Node.mk twoBoard Board.empty (.move .player2 .five) []).buildNMovesUpToSymmetry 1 =
      Node.mk twoBoard Board.empty (.move .player2 .five)
        (((Node.mk twoBoard Board.empty
            (.move .player2 .five)
            []).generateChildrenUpToSymmetry).children.map
          (fun c => c.buildNMovesUpToSymmetry (1 - 1)))) ∧
    ((Node.mk twoBoard Board.empty (.roll .player1) []).buildNMovesUpToSymmetry 0 =
      Node.mk twoBoard Board.empty (.roll .player1)
        (((Node.mk twoBoard Board.empty
            (.roll .player1) []).generateChildrenUpToSymmetry).children.map
          (fun c => c.buildNMovesUpToSymmetry 0))) :=
  ⟨⟨by decide, c8_build_n_moves.1 _ 3 (by decide)⟩,
   ⟨by decide, c8_build_n_moves.2.1 _ _ _ _ _ (by decide)⟩,
   c8_build_n_moves.2.2.1 _ _ _ _ _ 1 (by decide) (by decide),
   c8_build_n_moves.2.2.2 _ _ _ _ 0 (by decide)⟩

/-- C9 (counterexample): `is_legal_move` on a Roll node does not fail with
an error - it has no error channel at all and just returns the boolean
`false` (here on the empty Roll node). -/
theorem c9_counterexample : Node.empty.isLegalMove (Move.mk 0 0) = false := rfl

/-- C9 (amended): the fallible legal-move queries (`get_legal_moves`,
`get_legal_moves_up_to_row_symmetry`) fail with an error on a Roll node and
`add_rolls` fails with an error on a Move node, while the boolean query
`is_legal_move` simply returns `false` on a Roll node. -/
theorem c9_wrong_node_kind :
    (∀ (b1 b2 : Board) (p : Player) (cs : List Node) (m : Move),
      (Node.mk b1 b2 (.roll p) cs).getLegalMoves =
        .error "Cannot get legal moves from a roll node" ∧
      (Node.mk b1 b2 (.roll p) cs).getLegalMovesUpToRowSymmetry =
        .error "Cannot get legal moves from a roll node" ∧
      (Node.mk b1 b2 (.roll p) cs).isLegalMove m = false) ∧
    (∀ (b1 b2 : Board) (p : Player) (d : Die) (cs : List Node),
      (Node.mk b1 b2 (.move p d) cs).addRolls =
        .error "Cannot add rolls to a move node") := by
  constructor
  · intro b1 b2 p cs m
    exact ⟨rfl, rfl, rfl⟩
  · intro b1 b2 p d cs
    rfl

/-- C10: on a leaf Move node (empty children list, regardless of remaining
legal moves), the evaluator succeeds and returns the empty best-move list
paired with the objective applied to the node itself. -/
theorem c10_leaf_evaluation : ∀ (b1 b2 : Board) (p : Player) (d : Die)
    (f : Node → Rat),
    Node.getNextMovesAndEvaluation f (.mk b1 b2 (.move p d) []) =
      .ok ([], .fin (f (.mk b1 b2 (.move p d) []))) := by
  intro b1 b2 p d f
  rw [Node.getNextMovesAndEvaluation.eq_def]
  simp

end Knucklebones

namespace Knucklebones

theorem Board.isFull_iff {b : Board} :
    b.isFull = true ↔ ∀ r c, r < 3 → c < 3 → b.getCell r c ≠ some Square.empty := by
  rcases b with ⟨⟨a0, a1, a2⟩, ⟨b0, b1, b2⟩, ⟨c0, c1, c2⟩⟩
  simp only [Board.isFull, Board.getElements, List.all_cons, List.all_nil,
    Bool.and_eq_true, bne_iff_ne, ne_eq, and_true]
  constructor
  · rintro ⟨h1, h2, h3, h4, h5, h6, h7, h8, h9⟩ r c hr hc
    interval_cases r <;> interval_cases c <;>
      simp [Board.getCell, Board.col, Col3.row] <;> assumption
  · intro h
    exact ⟨fun he => h 0 0 (by omega) (by omega) (by simp [Board.getCell, Board.col, Col3.row, he]),
      fun he => h 1 0 (by omega) (by omega) (by simp [Board.getCell, Board.col, Col3.row, he]),
      fun he => h 2 0 (by omega) (by omega) (by simp [Board.getCell, Board.col, Col3.row, he]),
      fun he => h 0 1 (by omega) (by omega) (by simp [Board.getCell, Board.col, Col3.row, he]),
      fun he => h 1 1 (by omega) (by omega) (by simp [Board.getCell, Board.col, Col3.row, he]),
      fun he => h 2 1 (by omega) (by omega) (by simp [Board.getCell, Board.col, Col3.row, he]),
      fun he => h 0 2 (by omega) (by omega) (by simp [Board.getCell, Board.col, Col3.row, he]),
      fun he => h 1 2 (by omega) (by omega) (by simp [Board.getCell, Board.col, Col3.row, he]),
      fun he => h 2 2 (by omega) (by omega) (by simp [Board.getCell, Board.col, Col3.row, he])⟩

theorem Col3.firstEmpty_mem {col : Col3} {ci : Nat} {x : Nat × Nat}
    (hx : x ∈ col.firstEmpty ci) :
    x.2 = ci ∧ x.1 < 3 ∧ col.row x.1 = some Square.empty := by
  unfold Col3.firstEmpty at hx
  split_ifs at hx with h1 h2 h3 <;> simp at hx <;>
    (subst hx; exact ⟨rfl, by omega, by simp [Col3.row]; assumption⟩)

theorem Board.ers_mem {b : Board} {x : Nat × Nat}
    (hx : x ∈ b.getEmptySquaresUpToRowSymmetry) :
    x.1 < 3 ∧ x.2 < 3 ∧ b.getCell x.1 x.2 = some Square.empty := by
  unfold Board.getEmptySquaresUpToRowSymmetry at hx
  rcases List.mem_append.1 hx with hx | hx
  · rcases List.mem_append.1 hx with hx | hx
    · obtain ⟨h2, h1, hrow⟩ := Col3.firstEmpty_mem hx
      exact ⟨h1, by omega, by rw [h2]; simpa [Board.getCell, Board.col] using hrow⟩
    · obtain ⟨h2, h1, hrow⟩ := Col3.firstEmpty_mem hx
      exact ⟨h1, by omega, by rw [h2]; simpa [Board.getCell, Board.col] using hrow⟩
  · obtain ⟨h2, h1, hrow⟩ := Col3.firstEmpty_mem hx
    exact ⟨h1, by omega, by rw [h2]; simpa [Board.getCell, Board.col] using hrow⟩

theorem Col3.firstEmpty_sublist_single {col : Col3} {ci : Nat} :
    col.firstEmpty ci = [] ∨ ∃ r, col.firstEmpty ci = [(r, ci)] := by
  unfold Col3.firstEmpty
  split_ifs <;> first
    | exact .inl rfl
    | exact .inr ⟨_, rfl⟩

theorem Board.ers_pairwise {b : Board} :
    b.getEmptySquaresUpToRowSymmetry.Pairwise (fun x y => x.2 ≠ y.2) := by
  unfold Board.getEmptySquaresUpToRowSymmetry
  have single : ∀ (col : Col3) (ci : Nat),
      (col.firstEmpty ci).Pairwise (fun x y => x.2 ≠ y.2) := by
    intro col ci
    rcases @Col3.firstEmpty_sublist_single col ci with h | ⟨r, h⟩ <;>
      simp [h]
  refine (List.pairwise_append.2 ⟨(List.pairwise_append.2 ⟨single _ 0, single _ 1, ?_⟩),
    single _ 2, ?_⟩)
  · intro x hx y hy
    have h1 := (Col3.firstEmpty_mem hx).1
    have h2 := (Col3.firstEmpty_mem hy).1
    omega
  · intro x hx y hy
    have h2 := (Col3.firstEmpty_mem hy).1
    rcases List.mem_append.1 hx with hx | hx
    · have h1 := (Col3.firstEmpty_mem hx).1
      omega
    · have h1 := (Col3.firstEmpty_mem hx).1
      omega

end Knucklebones

namespace Knucklebones

theorem Board.withMoveMade_ok_inv {b : Board} {d : Die} {m : Move} {b2 : Board}
    (h : b.withMoveMade d m = some (.ok b2)) :
    b.getCell m.row m.column = some Square.empty ∧
    b.setCell m.row m.column (Square.die d) = some b2 := by
  unfold Board.withMoveMade at h
  cases hget : b.getCell m.row m.column with
  | none => rw [hget] at h; simp at h
  | some s =>
    rw [hget] at h
    by_cases hs : s = Square.empty
    · subst hs
      simp only [bne_self_eq_false, if_false] at h
      cases hset : b.setCell m.row m.column (Square.die d) with
      | none => rw [hset] at h; simp at h
      | some b3 =>
        rw [hset] at h
        simp at h
        exact ⟨rfl, by simp [hset, h]⟩
    · simp [hs] at h

theorem Node.withMoveMade_ok_cases {b1 b2 : Board} {p : Player} {d : Die}
    {cs : List Node} {m : Move} {e : Node}
    (h : (Node.mk b1 b2 (.move p d) cs).withMoveMade m = some (.ok e)) :
    ∃ bAct bOpp,
      ((Node.mk b1 b2 (.move p d) cs).getPlayerBoard p).getCell m.row m.column
        = some Square.empty ∧
      ((Node.mk b1 b2 (.move p d) cs).getPlayerBoard p).setCell m.row m.column
        (Square.die d) = some bAct ∧
      ((Node.mk b1 b2 (.move p d) cs).getPlayerBoard p.opponent).eliminate d m.column
        = some bOpp ∧
      e = Node.fromPlayerAndBoards p.opponent bOpp bAct (.roll p.opponent) := by
  unfold Node.withMoveMade at h
  simp only [Node.nodeType] at h
  cases hbw : ((Node.mk b1 b2 (.move p d) cs).getPlayerBoard p).withMoveMade d m with
  | none => rw [hbw] at h; simp at h
  | some r =>
    cases r with
    | error err => rw [hbw] at h; simp at h
    | ok bAct =>
      rw [hbw] at h
      cases hel : ((Node.mk b1 b2 (.move p d) cs).getPlayerBoard p.opponent).eliminate
          d m.column with
      | none => rw [hel] at h; simp at h
      | some bOpp =>
        rw [hel] at h
        simp only [Option.some.injEq, Except.ok.injEq] at h
        obtain ⟨hcell, hset⟩ := Board.withMoveMade_ok_inv hbw
        exact ⟨bAct, bOpp, hcell, hset, rfl, h.symm⟩

theorem Node.equalsUpToChildren_iff {a b : Node} :
    a.equalsUpToChildren b = true ↔
      a.player1Board = b.player1Board ∧ a.player2Board = b.player2Board ∧
        a.nodeType = b.nodeType := by
  unfold Node.equalsUpToChildren
  simp [Bool.and_eq_true, decide_eq_true_eq, and_assoc]

theorem Node.equalsUpToChildren_getPlayerBoard {a b : Node} (p : Player)
    (h : a.equalsUpToChildren b = true) : a.getPlayerBoard p = b.getPlayerBoard p := by
  obtain ⟨h1, h2, h3⟩ := Node.equalsUpToChildren_iff.1 h
  cases p <;> simp [Node.getPlayerBoard, h1, h2]

theorem Node.equalsUpToChildren_isGameOver {a b : Node}
    (h : a.equalsUpToChildren b = true) : a.isGameOver = b.isGameOver := by
  obtain ⟨h1, h2, h3⟩ := Node.equalsUpToChildren_iff.1 h
  simp [Node.isGameOver, h1, h2]

theorem Board.eliminate_full {b : Board} {d : Die} {ci : Nat} {b2 : Board}
    (h : b.eliminate d ci = some b2) (hf : b2.isFull = true) : b.isFull = true := by
  rw [Board.isFull_iff] at hf ⊢
  intro r c hr hc he
  have hb2 := Board.eliminate_spec h r c hr hc
  by_cases hcond : c = ci ∧ b.getCell r c = some (Square.die d)
  · rw [he] at hcond
    simp at hcond
  · rw [if_neg hcond, he] at hb2
    exact hf r c hr hc hb2

theorem eq_singleton_of_mem {α : Type} {l : List α} {m : α} (hm : m ∈ l)
    (hall : ∀ x ∈ l, x = m) (hnd : l.Nodup) : l = [m] := by
  cases l with
  | nil => simp at hm
  | cons x xs =>
    have hx : x = m := hall x (by simp)
    subst hx
    rw [List.nodup_cons] at hnd
    cases hxs : xs with
    | nil => rfl
    | cons y ys =>
      exfalso
      have hy : y = x := hall y (by simp [hxs])
      apply hnd.1
      rw [hxs, hy]
      simp

theorem Node.isGameOver_players {n : Node} (p : Player) :
    n.isGameOver = ((n.getPlayerBoard p).isFull || (n.getPlayerBoard p.opponent).isFull) := by
  cases p <;> simp [Node.isGameOver, Node.getPlayerBoard, Player.opponent, Bool.or_comm]

theorem Node.legalMovesList_mem {b1 b2 : Board} {p : Player} {d : Die}
    {cs : List Node} {m : Move}
    (hm : m ∈ (Node.mk b1 b2 (.move p d) cs).legalMovesList) :
    m.row < 3 ∧ m.column < 3 ∧
      ((Node.mk b1 b2 (.move p d) cs).getPlayerBoard p).getCell m.row m.column
        = some Square.empty := by
  unfold Node.legalMovesList at hm
  obtain ⟨sq, hsq, hmk⟩ := List.mem_map.1 hm
  obtain ⟨h1, h2, h3⟩ := Board.ers_mem hsq
  have hr : m.row = sq.1 := by rw [← hmk]
  have hc : m.column = sq.2 := by rw [← hmk]
  rw [hr, hc]
  exact ⟨h1, h2, by simpa [Node.getActivePlayer, Node.nodeType] using h3⟩

theorem Node.legalMovesList_pairwise {b1 b2 : Board} {p : Player} {d : Die}
    {cs : List Node} :
    (Node.mk b1 b2 (.move p d) cs).legalMovesList.Pairwise
      (fun a b => a.column ≠ b.column) := by
  unfold Node.legalMovesList
  rw [List.pairwise_map]
  exact Board.ers_pairwise

theorem Node.legalMovesList_nodup {b1 b2 : Board} {p : Player} {d : Die}
    {cs : List Node} :
    (Node.mk b1 b2 (.move p d) cs).legalMovesList.Nodup :=
  Node.legalMovesList_pairwise.imp (fun h he => h (by rw [he]))

end Knucklebones

namespace Knucklebones

theorem Node.withMoveMade_legal {b1 b2 : Board} {p : Player} {d : Die}
    {cs : List Node} {m : Move}
    (hcell : ((Node.mk b1 b2 (.move p d) cs).getPlayerBoard p).getCell m.row m.column
      = some Square.empty) :
    ∃ e, (Node.mk b1 b2 (.move p d) cs).withMoveMade m = some (.ok e) := by
  obtain ⟨bAct, hAct, hSet⟩ := Board.withMoveMade_empty d hcell
  obtain ⟨hr, hc⟩ := Board.getCell_some_bounds hcell
  obtain ⟨bOpp, hOpp⟩ := Board.eliminate_isSome
    (b := (Node.mk b1 b2 (.move p d) cs).getPlayerBoard p.opponent) d hc
  refine ⟨Node.fromPlayerAndBoards p.opponent bOpp bAct (.roll p.opponent), ?_⟩
  unfold Node.withMoveMade
  simp only [Node.nodeType]
  rw [hAct, hOpp]

theorem Node.child_terminal_singleton {b1 b2 : Board} {p : Player} {d : Die}
    {cs : List Node} {m : Move} {e : Node}
    (hgo : (Node.mk b1 b2 (.move p d) cs).isGameOver = false)
    (hmem : m ∈ (Node.mk b1 b2 (.move p d) cs).legalMovesList)
    (hwm : (Node.mk b1 b2 (.move p d) cs).withMoveMade m = some (.ok e))
    (hterm : e.isGameOver = true) :
    (Node.mk b1 b2 (.move p d) cs).legalMovesList = [m] := by
  obtain ⟨bAct, bOpp, hcell, hset, hel, he⟩ := Node.withMoveMade_ok_cases hwm
  have heb1 : e.getPlayerBoard p = bAct := by subst he; cases p <;> rfl
  have heb2 : e.getPlayerBoard p.opponent = bOpp := by subst he; cases p <;> rfl
  rw [Node.isGameOver_players p, heb1, heb2, Bool.or_eq_true] at hterm
  rw [Node.isGameOver_players p, Bool.or_eq_false_iff] at hgo
  rcases hterm with hterm | hterm
  · have hothers : ∀ r c, r < 3 → c < 3 → ¬(r = m.row ∧ c = m.column) →
        ((Node.mk b1 b2 (.move p d) cs).getPlayerBoard p).getCell r c
          ≠ some Square.empty := by
      intro r c hr hc hne he2
      have hb := Board.setCell_spec hset r c hr hc
      rw [if_neg hne, he2] at hb
      exact (Board.isFull_iff.1 hterm r c hr hc) hb
    apply eq_singleton_of_mem hmem _ Node.legalMovesList_nodup
    intro x hx
    obtain ⟨hxr, hxc, hxe⟩ := Node.legalMovesList_mem hx
    by_contra hxm
    have hne2 : ¬(x.row = m.row ∧ x.column = m.column) := by
      rintro ⟨h1, h2⟩
      apply hxm
      cases x
      cases m
      simp_all
    exact hothers x.row x.column hxr hxc hne2 hxe
  · exact absurd (Board.eliminate_full hel hterm) (by simp [hgo.2])

theorem all_map_general {α β : Type} (L : List α) (f : α → β) (q : β → Bool) :
    (L.map f).all q = L.all (fun x => q (f x)) := by
  induction L with
  | nil => rfl
  | cons a L ih => simp [ih]

theorem all_zip_attach_forall₂ {α β : Type} (p : α → β → Bool) :
    ∀ (l : List α) (cs : List β), l.length = cs.length →
      ((((l.zip cs.attach).all (fun mc => p mc.1 mc.2.1)) = true) ↔
        List.Forall₂ (fun a b => p a b = true) l cs) := by
  intro l
  induction l with
  | nil =>
    intro cs h
    cases cs with
    | nil => simp
    | cons c cs => simp at h
  | cons a l ih =>
    intro cs h
    cases cs with
    | nil => simp at h
    | cons c cs =>
      simp only [List.attach_cons, List.zip_cons_cons, List.all_cons, Bool.and_eq_true,
        List.forall₂_cons]
      rw [List.zip_map_right, all_map_general]
      exact and_congr Iff.rfl (ih cs (by simpa using h))

theorem find?_attach_map {α β : Type} (l : List α) (g : α → β) (q : α → Bool) :
    ((l.attach.map (fun x => (x.1, g x.1))).find? (fun y => q y.1)) =
      (l.find? q).map (fun c => (c, g c)) := by
  induction l with
  | nil => rfl
  | cons a l ih =>
    simp only [List.attach_cons, List.map_cons, List.map_map]
    rw [List.find?_cons, List.find?_cons]
    cases hqa : q a with
    | true => rfl
    | false =>
      simp only []
      rw [← ih]
      rfl

end Knucklebones

namespace Knucklebones

theorem Node.wellBuilt_move_inv {b1 b2 : Board} {p : Player} {d : Die} {cs : List Node}
    (h : (Node.mk b1 b2 (.move p d) cs).wellBuilt = true) (hne : cs ≠ []) :
    (Node.mk b1 b2 (.move p d) cs).isGameOver = false ∧
    (Node.mk b1 b2 (.move p d) cs).legalMovesList.length = cs.length ∧
    List.Forall₂ (fun m c =>
        ((match (Node.mk b1 b2 (.move p d) cs).withMoveMade m with
          | some (.ok e) => c.equalsUpToChildren e
          | _ => false) && c.wellBuilt) = true)
      (Node.mk b1 b2 (.move p d) cs).legalMovesList cs := by
  rw [Node.wellBuilt] at h
  simp only [Bool.or_eq_true] at h
  rcases h with h | h
  · exact absurd (List.isEmpty_iff.1 h) hne
  · simp only [Bool.and_eq_true, Bool.not_eq_true', beq_iff_eq] at h
    obtain ⟨⟨hgo, hlen⟩, hall⟩ := h
    refine ⟨hgo, hlen, ?_⟩
    exact (all_zip_attach_forall₂
      (fun m c =>
        (match (Node.mk b1 b2 (.move p d) cs).withMoveMade m with
         | some (.ok e) => c.equalsUpToChildren e
         | _ => false) && c.wellBuilt)
      (Node.mk b1 b2 (.move p d) cs).legalMovesList cs hlen).1 hall

theorem Node.wellBuilt_roll_inv {b1 b2 : Board} {p : Player} {cs : List Node}
    (h : (Node.mk b1 b2 (.roll p) cs).wellBuilt = true)
    (hgo : (Node.mk b1 b2 (.roll p) cs).isGameOver = false) :
    List.Forall₂ (fun die c =>
        (c.equalsUpToChildren (Node.mk b1 b2 (.move p die) []) && c.wellBuilt) = true)
      Die.all cs := by
  rw [Node.wellBuilt] at h
  simp only [hgo, Bool.false_eq_true, if_false, Bool.and_eq_true, beq_iff_eq] at h
  obtain ⟨hlen, hall⟩ := h
  exact (all_zip_attach_forall₂
    (fun die c =>
      c.equalsUpToChildren (Node.mk b1 b2 (.move p die) []) && c.wellBuilt)
    Die.all cs (by simp [Die.all, hlen])).1 hall

theorem Node.find_partner {b1 b2 : Board} {p : Player} {d : Die} {cs0 : List Node} :
    ∀ (moves : List Move) (cs : List Node),
      List.Forall₂ (fun m c => ∃ e0,
          (Node.mk b1 b2 (.move p d) cs0).withMoveMade m = some (.ok e0) ∧
          c.equalsUpToChildren e0 = true) moves cs →
      moves.Pairwise (fun a b => a.column ≠ b.column) →
      (∀ x ∈ moves,
        ((Node.mk b1 b2 (.move p d) cs0).getPlayerBoard p).getCell x.row x.column
          = some Square.empty) →
      ∀ m c e, (m, c) ∈ moves.zip cs →
        (Node.mk b1 b2 (.move p d) cs0).withMoveMade m = some (.ok e) →
        cs.find? (fun child => child.equalsUpToChildren e) = some c := by
  intro moves cs hfa
  induction hfa with
  | nil =>
    intro _ _ m c e hmem
    simp at hmem
  | @cons m0 c0 ms cs2 hR hrest ih =>
    intro hpw hQ m c e hmem hwm
    rw [List.zip_cons_cons] at hmem
    rcases List.mem_cons.1 hmem with heq | hmem2
    · have hm : m = m0 := congrArg Prod.fst heq
      have hc : c = c0 := congrArg Prod.snd heq
      subst hm
      subst hc
      obtain ⟨e0, hw0, heq0⟩ := hR
      rw [hw0] at hwm
      have he : e0 = e := by
        simpa using hwm
      subst he
      exact List.find?_cons_of_pos _ (by simpa using heq0)
    · obtain ⟨e0, hw0, heq0⟩ := hR
      have hm_ms : m ∈ ms := (List.of_mem_zip hmem2).1
      have hcolne : m0.column ≠ m.column := (List.pairwise_cons.1 hpw).1 m hm_ms
      have hQm := hQ m (by simp [hm_ms])
      obtain ⟨a0, o0, hc0, hs0, hel0, he0⟩ := Node.withMoveMade_ok_cases hw0
      obtain ⟨a1, o1, hc1, hs1, hel1, he1⟩ := Node.withMoveMade_ok_cases hwm
      have hb0 : e0.getPlayerBoard p = a0 := by subst he0; cases p <;> rfl
      have hb1 : e.getPlayerBoard p = a1 := by subst he1; cases p <;> rfl
      obtain ⟨hmr, hmc⟩ := Board.getCell_some_bounds hQm
      have h1 : a0.getCell m.row m.column = some Square.empty := by
        rw [Board.setCell_spec hs0 m.row m.column hmr hmc,
          if_neg (fun hcontra => hcolne hcontra.2.symm)]
        exact hQm
      have h2 : a1.getCell m.row m.column = some (Square.die d) := by
        rw [Board.setCell_spec hs1 m.row m.column hmr hmc, if_pos ⟨rfl, rfl⟩]
      have hpredfalse : ¬ (c0.equalsUpToChildren e = true) := by
        intro hcontra
        have hce : c0.getPlayerBoard p = e.getPlayerBoard p :=
          Node.equalsUpToChildren_getPlayerBoard p hcontra
        have hc0e0 : c0.getPlayerBoard p = e0.getPlayerBoard p :=
          Node.equalsUpToChildren_getPlayerBoard p heq0
        have : a0 = a1 := by rw [← hb0, ← hb1, ← hc0e0, hce]
        rw [this, h2] at h1
        simp at h1
      rw [List.find?_cons_of_neg _ (by simpa using hpredfalse)]
      exact ih (List.pairwise_cons.1 hpw).2 (fun x hx => hQ x (by simp [hx])) m c e
        hmem2 hwm

end Knucklebones

namespace Knucklebones

theorem compare_fin_fin_p1 (x y : Rat) :
    Player.player1.compareEvaluation (.fin x) (.fin y) =
      if x = y then .equal else if x > y then .better else .worse := by
  unfold Player.compareEvaluation
  by_cases h : x = y <;>
    simp [EvalValue.ieeeEq, EvalValue.ieeeGt, h]

theorem compare_fin_fin_p2 (x y : Rat) :
    Player.player2.compareEvaluation (.fin x) (.fin y) =
      if x = y then .equal else if x < y then .better else .worse := by
  unfold Player.compareEvaluation
  by_cases h : x = y <;>
    simp [EvalValue.ieeeEq, EvalValue.ieeeLt, h]

theorem compare_fin_ninf_p1 (x : Rat) :
    Player.player1.compareEvaluation (.fin x) .ninf = .better := rfl

theorem compare_fin_pinf_p2 (x : Rat) :
    Player.player2.compareEvaluation (.fin x) .pinf = .better := rfl

theorem foldBest_cons_p1 (b x : Rat) (l : List Rat) :
    Player.player1.foldBest b (x :: l) = Player.player1.foldBest (max b x) l := rfl

theorem foldBest_cons_p2 (b x : Rat) (l : List Rat) :
    Player.player2.foldBest b (x :: l) = Player.player2.foldBest (min b x) l := rfl

theorem foldBest_nil (p : Player) (b : Rat) : p.foldBest b [] = b := rfl

theorem foldBest_ge : ∀ (l : List Rat) (b : Rat), b ≤ Player.player1.foldBest b l := by
  intro l
  induction l with
  | nil => intro b; exact le_refl b
  | cons x l ih =>
    intro b
    rw [foldBest_cons_p1]
    exact le_trans (le_max_left b x) (ih _)

theorem foldBest_le : ∀ (l : List Rat) (b : Rat), Player.player2.foldBest b l ≤ b := by
  intro l
  induction l with
  | nil => intro b; exact le_refl b
  | cons x l ih =>
    intro b
    rw [foldBest_cons_p2]
    exact le_trans (ih _) (min_le_left b x)

theorem sum_map_div (qs : List Rat) (denom : Rat) :
    (qs.map (fun q => q / denom)).sum = qs.sum / denom := by
  induction qs with
  | nil => simp
  | cons q qs ih =>
    simp [ih]
    ring

theorem fold_avg (denom : Rat) : ∀ (qs : List Rat) (a : Rat),
    ((qs.map EvalValue.fin).foldl
        (fun acc v => EvalValue.add acc (EvalValue.divBy v denom))
        (EvalValue.fin a)) =
      EvalValue.fin (a + qs.sum / denom) := by
  intro qs
  induction qs with
  | nil => intro a; simp [EvalValue.add]
  | cons q qs ih =>
    intro a
    simp only [List.map_cons, List.foldl_cons]
    rw [show EvalValue.add (EvalValue.fin a) (EvalValue.divBy (EvalValue.fin q) denom)
        = EvalValue.fin (a + q / denom) from rfl, ih]
    congr 1
    rw [List.sum_cons]
    ring

theorem collectEvals_attach_map {l : List Node}
    (F : Node → Except String (List Move × EvalValue))
    (V : Node → List Move × EvalValue)
    (h : ∀ x ∈ l, F x = .ok (V x)) :
    collectEvals (l.attach.map (fun g => F g.1)) = some (l.map (fun x => (V x).2)) := by
  induction l with
  | nil => rfl
  | cons a l ih =>
    rw [List.attach_cons]
    simp only [List.map_cons, List.map_map]
    rw [h a (by simp)]
    rw [collectEvals]
    have hih := ih (fun x hx => h x (by simp [hx]))
    rw [show (List.map ((fun g : {x // x ∈ a :: l} => F g.1) ∘
        (fun x : {x // x ∈ l} => (⟨x.1, by simp [x.2]⟩ : {x // x ∈ a :: l}))) l.attach)
        = List.map (fun g : {x // x ∈ l} => F g.1) l.attach from rfl]
    rw [hih]
    rfl

theorem gnmeLoop_argmax (p : Player) (f : Node → Rat) (n : Node)
    (table : List (Node × List (Except String (List Move × EvalValue))))
    (cand : Move → Rat) :
    ∀ (ms : List Move) (b : Rat) (acc : List Move),
      (∀ m ∈ ms, Node.gnmeStep f n table m = .cand (.fin (cand m))) →
      Node.gnmeLoop p f n table ms (.fin b) acc =
        .ok ((if p.foldBest b (ms.map cand) = b then acc else []) ++
          ms.filter (fun m => cand m == p.foldBest b (ms.map cand)),
          .fin (p.foldBest b (ms.map cand))) := by
  intro ms
  induction ms with
  | nil =>
    intro b acc hsteps
    simp [Node.gnmeLoop, foldBest_nil]
  | cons m ms ih =>
    intro b acc hsteps
    rw [Node.gnmeLoop, hsteps m (by simp)]
    cases p with
    | player1 =>
      dsimp only
      rw [compare_fin_fin_p1]
      by_cases hxy : cand m = b
      · rw [if_pos hxy]
        rw [ih b (acc ++ [m]) (fun x hx => hsteps x (by simp [hx]))]
        simp only [List.map_cons, foldBest_cons_p1, hxy, max_self]
        by_cases hFb : Player.player1.foldBest b (ms.map cand) = b
        · simp [hFb, hxy, List.filter_cons]
        · simp [hFb, hxy, List.filter_cons,
            show ¬ (cand m = Player.player1.foldBest b (ms.map cand)) from
              fun hc => hFb (by rw [← hc, hxy]),
            show ¬ (b = Player.player1.foldBest b (ms.map cand)) from
              fun hc => hFb hc.symm]
      · rw [if_neg hxy]
        by_cases hgt : cand m > b
        · rw [if_pos hgt]
          rw [ih (cand m) [m] (fun x hx => hsteps x (by simp [hx]))]
          have hmax : max b (cand m) = cand m := max_eq_right (le_of_lt hgt)
          simp only [List.map_cons, foldBest_cons_p1, hmax]
          have hF2 : ¬ (Player.player1.foldBest (cand m) (ms.map cand) = b) := by
            intro hc
            have := foldBest_ge (ms.map cand) (cand m)
            rw [hc] at this
            exact absurd this (not_le.2 hgt)
          rw [if_neg hF2]
          by_cases hFm : Player.player1.foldBest (cand m) (ms.map cand) = cand m
          · simp [hFm, List.filter_cons]
          · simp [hFm, List.filter_cons,
              show ¬ (cand m = Player.player1.foldBest (cand m) (ms.map cand)) from
                fun hc => hFm hc.symm]
        · rw [if_neg hgt]
          rw [ih b acc (fun x hx => hsteps x (by simp [hx]))]
          have hmax : max b (cand m) = b :=
            max_eq_left (le_of_not_lt hgt)
          simp only [List.map_cons, foldBest_cons_p1, hmax]
          have hFm : ¬ (cand m = Player.player1.foldBest b (ms.map cand)) := by
            intro hc
            have := foldBest_ge (ms.map cand) b
            rw [← hc] at this
            rcases lt_or_eq_of_le this with hlt | heq
            · exact hgt hlt
            · exact hxy heq.symm
          simp [List.filter_cons, hFm]
    | player2 =>
      dsimp only
      rw [compare_fin_fin_p2]
      by_cases hxy : cand m = b
      · rw [if_pos hxy]
        rw [ih b (acc ++ [m]) (fun x hx => hsteps x (by simp [hx]))]
        simp only [List.map_cons, foldBest_cons_p2, hxy, min_self]
        by_cases hFb : Player.player2.foldBest b (ms.map cand) = b
        · simp [hFb, hxy, List.filter_cons]
        · simp [hFb, hxy, List.filter_cons,
            show ¬ (cand m = Player.player2.foldBest b (ms.map cand)) from
              fun hc => hFb (by rw [← hc, hxy]),
            show ¬ (b = Player.player2.foldBest b (ms.map cand)) from
              fun hc => hFb hc.symm]
      · rw [if_neg hxy]
        by_cases hlt : cand m < b
        · rw [if_pos hlt]
          rw [ih (cand m) [m] (fun x hx => hsteps x (by simp [hx]))]
          have hmin : min b (cand m) = cand m := min_eq_right (le_of_lt hlt)
          simp only [List.map_cons, foldBest_cons_p2, hmin]
          have hF2 : ¬ (Player.player2.foldBest (cand m) (ms.map cand) = b) := by
            intro hc
            have := foldBest_le (ms.map cand) (cand m)
            rw [hc] at this
            exact absurd this (not_le.2 hlt)
          rw [if_neg hF2]
          by_cases hFm : Player.player2.foldBest (cand m) (ms.map cand) = cand m
          · simp [hFm, List.filter_cons]
          · simp [hFm, List.filter_cons,
              show ¬ (cand m = Player.player2.foldBest (cand m) (ms.map cand)) from
                fun hc => hFm hc.symm]
        · rw [if_neg hlt]
          rw [ih b acc (fun x hx => hsteps x (by simp [hx]))]
          have hmin : min b (cand m) = b :=
            min_eq_left (le_of_not_lt hlt)
          simp only [List.map_cons, foldBest_cons_p2, hmin]
          have hFm : ¬ (cand m = Player.player2.foldBest b (ms.map cand)) := by
            intro hc
            have := foldBest_le (ms.map cand) b
            rw [← hc] at this
            rcases lt_or_eq_of_le this with hlt2 | heq
            · exact hlt hlt2
            · exact hxy heq
          simp [List.filter_cons, hFm]

end Knucklebones

namespace Knucklebones

theorem Node.children_mk (B1 B2 : Board) (t : NodeType) (cs : List Node) :
    (Node.mk B1 B2 t cs).children = cs := rfl

theorem find?_map_pair {α β : Type} (l : List α) (g : α → β) (q : α → Bool) :
    ((l.map (fun x => (x, g x))).find? (fun y => q y.1)) =
      (l.find? q).map (fun c => (c, g c)) := by
  induction l with
  | nil => rfl
  | cons a l ih =>
    rw [List.map_cons, List.find?_cons, List.find?_cons]
    cases hqa : q a with
    | true => rfl
    | false => exact ih

theorem Node.specValue_eq (f : Node → Rat) (b1 b2 : Board) (t : NodeType)
    (cs : List Node) :
    Node.specValue f (.mk b1 b2 t cs) =
      if cs.isEmpty then f (.mk b1 b2 t cs)
      else
        match (Node.mk b1 b2 t cs).legalMovesList.map
            ((Node.mk b1 b2 t cs).specCandidate f) with
        | [] => f (.mk b1 b2 t cs)
        | v :: vs => (Node.mk b1 b2 t cs).getActivePlayer.foldBest v vs := by
  rw [Node.specValue]
  by_cases hcs : cs.isEmpty
  · simp [hcs]
  · simp only [hcs, Bool.false_eq_true, if_false]
    congr 1
    apply List.map_congr_left
    intro m hm
    dsimp only
    unfold Node.specCandidate
    cases hw : (Node.mk b1 b2 t cs).withMoveMade m with
    | none => rfl
    | some r =>
      cases r with
      | error e => rfl
      | ok e =>
        dsimp only
        rw [find?_attach_map cs
          (fun c => if c.isGameOver then f c
            else ((c.children.attach.map (fun g => Node.specValue f g.1)).sum) /
              ((c.children.length : Rat)))
          (fun c => c.equalsUpToChildren e)]
        simp only [Node.children_mk]
        cases hf : cs.find? (fun c => c.equalsUpToChildren e) with
        | none => rfl
        | some c =>
          simp only [Option.map_some']
          rw [show (c.children.attach.map (fun g => Node.specValue f g.1))
              = c.children.map (Node.specValue f) from List.attach_map_val c.children _]

end Knucklebones

namespace Knucklebones

theorem Node.specValue_leaf (f : Node → Rat) (b1 b2 : Board) (t : NodeType) :
    Node.specValue f (.mk b1 b2 t []) = f (.mk b1 b2 t []) := by
  rw [Node.specValue_eq]
  simp

theorem Node.specValue_nonleaf (f : Node → Rat) (b1 b2 : Board) (p : Player)
    (d : Die) (cs : List Node) (hne : cs ≠ [])
    (hlen : (Node.mk b1 b2 (.move p d) cs).legalMovesList.length = cs.length) :
    Node.specValue f (.mk b1 b2 (.move p d) cs) =
      (Node.mk b1 b2 (.move p d) cs).specBestValue f := by
  rw [Node.specValue_eq, if_neg (by simpa [List.isEmpty_iff] using hne)]
  unfold Node.specBestValue
  cases hmv : (Node.mk b1 b2 (.move p d) cs).legalMovesList.map
      ((Node.mk b1 b2 (.move p d) cs).specCandidate f) with
  | nil =>
    exfalso
    have : (Node.mk b1 b2 (.move p d) cs).legalMovesList = [] :=
      List.map_eq_nil_iff.1 hmv
    rw [this] at hlen
    exact hne (List.length_eq_zero.1 hlen.symm)
  | cons v vs => rfl

end Knucklebones

namespace Knucklebones

theorem Node.getActivePlayer_mk (b1 b2 : Board) (p : Player) (d : Die)
    (cs : List Node) :
    (Node.mk b1 b2 (.move p d) cs).getActivePlayer = p := rfl

theorem Node.legalMovesList_mk (b1 b2 : Board) (p : Player) (d : Die)
    (cs : List Node) :
    (Node.mk b1 b2 (.move p d) cs).legalMovesList =
      List.map (fun sq => Move.mk sq.1 sq.2)
        ((Node.mk b1 b2 (.move p d) cs).getPlayerBoard p).getEmptySquaresUpToRowSymmetry :=
  rfl

theorem mem_zip_left {α β : Type} :
    ∀ {l1 : List α} {l2 : List β}, l1.length = l2.length →
      ∀ {a}, a ∈ l1 → ∃ b, (a, b) ∈ l1.zip l2 := by
  intro l1
  induction l1 with
  | nil =>
    intro l2 h a ha
    simp at ha
  | cons x l ih =>
    intro l2 h a ha
    cases l2 with
    | nil => simp at h
    | cons y l2 =>
      rcases List.mem_cons.1 ha with rfl | ha2
      · exact ⟨y, by simp⟩
      · obtain ⟨b, hb⟩ := ih (by simpa using h) ha2
        exact ⟨b, by simp [hb]⟩

theorem mem_zip_right {α β : Type} :
    ∀ {l1 : List α} {l2 : List β}, l1.length = l2.length →
      ∀ {b}, b ∈ l2 → ∃ a, (a, b) ∈ l1.zip l2 := by
  intro l1
  induction l1 with
  | nil =>
    intro l2 h b hb
    cases l2 with
    | nil => simp at hb
    | cons y l2 => simp at h
  | cons x l ih =>
    intro l2 h b hb
    cases l2 with
    | nil => simp at hb
    | cons y l2 =>
      rcases List.mem_cons.1 hb with rfl | hb2
      · exact ⟨x, by simp⟩
      · obtain ⟨a, ha⟩ := ih (by simpa using h) hb2
        exact ⟨a, by simp [ha]⟩

theorem Node.gnmeStep_eq (f : Node → Rat) (b1 b2 : Board) (p : Player) (d : Die)
    (cs : List Node) (m : Move) (e0 c : Node)
    (hw : (Node.mk b1 b2 (.move p d) cs).withMoveMade m = some (.ok e0))
    (hfindc : cs.find? (fun child => child.equalsUpToChildren e0) = some c) :
    Node.gnmeStep f (Node.mk b1 b2 (.move p d) cs)
      (cs.attach.map (fun x =>
        (x.1, x.1.children.attach.map
          (fun g => Node.getNextMovesAndEvaluation f g.1)))) m =
      (if c.isGameOver then .early [m] (.fin (f c))
       else
        match collectEvals
            (c.children.attach.map (fun g => Node.getNextMovesAndEvaluation f g.1)) with
        | none => .panic "panic: child evaluation failed"
        | some vals =>
          .cand (vals.foldl
            (fun acc v => EvalValue.add acc (EvalValue.divBy v ((c.children.length : Rat))))
            (.fin 0))) := by
  unfold Node.gnmeStep
  rw [hw]
  dsimp only
  rw [find?_attach_map cs
    (fun x => x.children.attach.map (fun g => Node.getNextMovesAndEvaluation f g.1))
    (fun child => child.equalsUpToChildren e0), hfindc]
  rfl

theorem Node.specCandidate_eq (f : Node → Rat) (b1 b2 : Board) (p : Player)
    (d : Die) (cs : List Node) (m : Move) (e0 c : Node)
    (hw : (Node.mk b1 b2 (.move p d) cs).withMoveMade m = some (.ok e0))
    (hfindc : cs.find? (fun child => child.equalsUpToChildren e0) = some c) :
    (Node.mk b1 b2 (.move p d) cs).specCandidate f m =
      if c.isGameOver then f c
      else ((c.children.map (Node.specValue f)).sum) / ((c.children.length : Rat)) := by
  unfold Node.specCandidate
  rw [hw]
  dsimp only
  rw [Node.children_mk, hfindc]

end Knucklebones

namespace Knucklebones

theorem compare_fin_best0 (p : Player) (x : Rat) :
    p.compareEvaluation (.fin x)
      (match p with
        | .player1 => EvalValue.ninf
        | .player2 => EvalValue.pinf) = .better := by
  cases p <;> rfl

theorem gnme_wellBuilt (f : Node → Rat) :
    ∀ (n : Node), n.wellBuilt = true →
      ∀ (p : Player) (d : Die), n.nodeType = NodeType.move p d →
        Node.getNextMovesAndEvaluation f n =
          .ok (if n.children.isEmpty then ([], .fin (f n))
               else (n.specBestMoves f, .fin (n.specBestValue f))) := by
  suffices H : ∀ (k : Nat) (n : Node), sizeOf n < k → n.wellBuilt = true →
      ∀ (p : Player) (d : Die), n.nodeType = NodeType.move p d →
        Node.getNextMovesAndEvaluation f n =
          .ok (if n.children.isEmpty then ([], .fin (f n))
               else (n.specBestMoves f, .fin (n.specBestValue f))) by
    intro n hwb p d ht
    exact H (sizeOf n + 1) n (Nat.lt_succ_self _) hwb p d ht
  intro k
  induction k with
  | zero =>
    intro n h
    omega
  | succ k ih =>
    intro n hsz hwb p d ht
    rcases n with ⟨b1, b2, t, cs⟩
    have ht2 : t = NodeType.move p d := ht
    subst ht2
    by_cases hcs : cs.isEmpty
    · have hcs2 : cs = [] := List.isEmpty_iff.1 hcs
      subst hcs2
      rw [Node.getNextMovesAndEvaluation.eq_def]
      simp [Node.children_mk]
    · have hne : cs ≠ [] := by
        intro hh
        rw [hh] at hcs
        exact hcs rfl
      obtain ⟨hgo, hlen, hfa⟩ := Node.wellBuilt_move_inv hwb hne
      have hfa2 : List.Forall₂ (fun m c => ∃ e0,
          (Node.mk b1 b2 (.move p d) cs).withMoveMade m = some (.ok e0) ∧
          c.equalsUpToChildren e0 = true ∧ c.wellBuilt = true)
          (Node.mk b1 b2 (.move p d) cs).legalMovesList cs := by
        refine hfa.imp ?_
        intro m c hmc
        rw [Bool.and_eq_true] at hmc
        obtain ⟨hmatch, hwb2⟩ := hmc
        cases hw : (Node.mk b1 b2 (.move p d) cs).withMoveMade m with
        | none =>
          rw [hw] at hmatch
          exact Bool.noConfusion hmatch
        | some r =>
          cases r with
          | error err =>
            rw [hw] at hmatch
            exact Bool.noConfusion hmatch
          | ok e0 =>
            rw [hw] at hmatch
            exact ⟨e0, rfl, hmatch, hwb2⟩
      have hQ : ∀ x ∈ (Node.mk b1 b2 (.move p d) cs).legalMovesList,
          ((Node.mk b1 b2 (.move p d) cs).getPlayerBoard p).getCell x.row x.column
            = some Square.empty :=
        fun x hx => (Node.legalMovesList_mem hx).2.2
      have hfind := @Node.find_partner b1 b2 p d cs
        (Node.mk b1 b2 (.move p d) cs).legalMovesList cs
        (hfa2.imp (fun m c hmc => by
          obtain ⟨e0, hw, heq, -⟩ := hmc
          exact ⟨e0, hw, heq⟩))
        Node.legalMovesList_pairwise hQ
      have hzipR : ∀ {a : Move} {b : Node},
          (a, b) ∈ (Node.mk b1 b2 (.move p d) cs).legalMovesList.zip cs →
          ∃ e0, (Node.mk b1 b2 (.move p d) cs).withMoveMade a = some (.ok e0) ∧
            b.equalsUpToChildren e0 = true ∧ b.wellBuilt = true :=
        (List.forall₂_iff_zip.1 hfa2).2
      rw [Node.getNextMovesAndEvaluation.eq_def]
      simp only [hcs, Bool.false_eq_true, if_false]
      rw [← Node.legalMovesList_mk]
      by_cases hterm : ∃ x ∈ ((Node.mk b1 b2 (.move p d) cs).legalMovesList).zip cs,
          (x.2 : Node).isGameOver = true
      · -- some stored child is terminal: the active board had one empty square,
        -- so there is exactly one legal move and the loop early-returns on it.
        obtain ⟨⟨m, c⟩, hx, hxterm⟩ := hterm
        obtain ⟨e0, hw, heq, hcwb⟩ := hzipR hx
        have he0term : e0.isGameOver = true := by
          rw [← Node.equalsUpToChildren_isGameOver heq]
          exact hxterm
        have hmmem : m ∈ (Node.mk b1 b2 (.move p d) cs).legalMovesList :=
          (List.of_mem_zip hx).1
        have hsingle := Node.child_terminal_singleton hgo hmmem hw he0term
        have hlen1 : cs.length = 1 := by
          rw [hsingle] at hlen
          simpa using hlen.symm
        obtain ⟨c1, hcs1⟩ := List.length_eq_one.1 hlen1
        have hc1 : c = c1 := by
          rw [hsingle, hcs1] at hx
          simpa using hx
        subst hc1
        have hfindc : cs.find? (fun child => child.equalsUpToChildren e0) = some c :=
          hfind m c e0 hx hw
        rw [hsingle, Node.gnmeLoop,
          Node.gnmeStep_eq f b1 b2 p d cs m e0 c hw hfindc, if_pos hxterm]
        dsimp only
        have hcand : (Node.mk b1 b2 (.move p d) cs).specCandidate f m = f c := by
          rw [Node.specCandidate_eq f b1 b2 p d cs m e0 c hw hfindc, if_pos hxterm]
        have hbv : (Node.mk b1 b2 (.move p d) cs).specBestValue f = f c := by
          unfold Node.specBestValue
          rw [hsingle]
          simp [hcand, foldBest_nil]
        have hbm : (Node.mk b1 b2 (.move p d) cs).specBestMoves f = [m] := by
          unfold Node.specBestMoves
          rw [hsingle]
          simp [hcand, hbv]
        rw [hbv, hbm]
        simp [hcs, Node.children_mk]
      · -- no stored child is terminal: every step yields a finite candidate and
        -- the loop computes the player-directional argmax with ties in order.
        push_neg at hterm
        have hsteps : ∀ m ∈ (Node.mk b1 b2 (.move p d) cs).legalMovesList,
            Node.gnmeStep f (Node.mk b1 b2 (.move p d) cs)
              (cs.attach.map (fun x =>
                (x.1, x.1.children.attach.map
                  (fun g => Node.getNextMovesAndEvaluation f g.1)))) m =
              .cand (.fin ((Node.mk b1 b2 (.move p d) cs).specCandidate f m)) := by
          intro m hm
          obtain ⟨c, hzc⟩ := mem_zip_left hlen hm
          obtain ⟨e0, hw, heq, hcwb⟩ := hzipR hzc
          have hcterm : c.isGameOver = false := by
            have := hterm (m, c) hzc
            simpa using this
          have hfindc : cs.find? (fun child => child.equalsUpToChildren e0) = some c :=
            hfind m c e0 hzc hw
          rw [Node.gnmeStep_eq f b1 b2 p d cs m e0 c hw hfindc,
            if_neg (by simp [hcterm])]
          have hctype : c.nodeType = NodeType.roll p.opponent := by
            have h1 := (Node.equalsUpToChildren_iff.1 heq).2.2
            obtain ⟨a1, o1, -, -, -, he0⟩ := Node.withMoveMade_ok_cases hw
            rw [h1, he0]
            cases p <;> rfl
          rcases c with ⟨cb1, cb2, ct, ccs⟩
          have hct : ct = NodeType.roll p.opponent := hctype
          subst hct
          have hroll := Node.wellBuilt_roll_inv hcwb hcterm
          have hzipRoll : ∀ {a : Die} {b : Node}, (a, b) ∈ Die.all.zip ccs →
              (b.equalsUpToChildren (Node.mk cb1 cb2 (.move p.opponent a) []) &&
                b.wellBuilt) = true :=
            (List.forall₂_iff_zip.1 hroll).2
          have hrollLen : (Die.all).length = ccs.length := List.Forall₂.length_eq hroll
          have hsizec : sizeOf (Node.mk cb1 cb2 (NodeType.roll p.opponent) ccs) <
              sizeOf (Node.mk b1 b2 (NodeType.move p d) cs) := by
            have h1 := List.sizeOf_lt_of_mem (List.mem_of_find?_eq_some hfindc)
            simp only [Node.mk.sizeOf_spec] at h1 ⊢
            omega
          have hFV2 : ∀ g ∈ ccs, Node.getNextMovesAndEvaluation f g =
              .ok ((fun g => (if g.children.isEmpty then ([] : List Move)
                    else g.specBestMoves f,
                  EvalValue.fin (Node.specValue f g))) g) := by
            intro g hgmem
            obtain ⟨die, hzd⟩ := mem_zip_right hrollLen hgmem
            obtain ⟨heqg, hgwb⟩ : g.equalsUpToChildren
                (Node.mk cb1 cb2 (.move p.opponent die) []) = true ∧
                g.wellBuilt = true := by
              have := hzipRoll hzd
              rw [Bool.and_eq_true] at this
              exact this
            have hgtype : g.nodeType = NodeType.move p.opponent die :=
              (Node.equalsUpToChildren_iff.1 heqg).2.2
            have hsizeg : sizeOf g < k := by
              have h1 := List.sizeOf_lt_of_mem hgmem
              have h2 : sizeOf ccs <
                  sizeOf (Node.mk cb1 cb2 (NodeType.roll p.opponent) ccs) := by
                simp
              omega
            have hIH := ih g hsizeg hgwb p.opponent die hgtype
            rw [hIH]
            rcases g with ⟨gb1, gb2, gt, gcs⟩
            have hgt : gt = NodeType.move p.opponent die := hgtype
            subst hgt
            by_cases hgcs : gcs.isEmpty
            · have : gcs = [] := List.isEmpty_iff.1 hgcs
              subst this
              simp [Node.children_mk, Node.specValue_leaf]
            · have hgne : gcs ≠ [] := by
                intro hh
                rw [hh] at hgcs
                exact hgcs rfl
              obtain ⟨-, hglen, -⟩ := Node.wellBuilt_move_inv hgwb hgne
              simp only [Node.children_mk, hgcs, Bool.false_eq_true, if_false]
              rw [Node.specValue_nonleaf f gb1 gb2 p.opponent die gcs hgne hglen]
          simp only [Node.children_mk]
          rw [collectEvals_attach_map
            (Node.getNextMovesAndEvaluation f)
            (fun g => (if g.children.isEmpty then ([] : List Move)
                else g.specBestMoves f,
              EvalValue.fin (Node.specValue f g))) hFV2]
          dsimp only
          rw [show (ccs.map (fun g => EvalValue.fin (Node.specValue f g)))
              = (ccs.map (Node.specValue f)).map EvalValue.fin by
            rw [List.map_map]; rfl]
          rw [fold_avg, zero_add,
            Node.specCandidate_eq f b1 b2 p d cs m e0 _ hw hfindc,
            if_neg (by simp [hcterm])]
          rw [Node.children_mk]
        rcases hmoves : (Node.mk b1 b2 (.move p d) cs).legalMovesList with _ | ⟨m0, rest⟩
        · exfalso
          rw [hmoves] at hlen
          exact hne (List.length_eq_zero.1 hlen.symm)
        · rw [hmoves] at hsteps
          rw [Node.gnmeLoop, hsteps m0 (by simp)]
          dsimp only
          rw [compare_fin_best0]
          rw [gnmeLoop_argmax p f (Node.mk b1 b2 (.move p d) cs) _
            ((Node.mk b1 b2 (.move p d) cs).specCandidate f) rest
            ((Node.mk b1 b2 (.move p d) cs).specCandidate f m0) [m0]
            (fun x hx => hsteps x (by simp [hx]))]
          have hbv : (Node.mk b1 b2 (.move p d) cs).specBestValue f =
              p.foldBest ((Node.mk b1 b2 (.move p d) cs).specCandidate f m0)
                (rest.map ((Node.mk b1 b2 (.move p d) cs).specCandidate f)) := by
            unfold Node.specBestValue
            rw [hmoves]
            simp [Node.getActivePlayer_mk]
          have hbm : (Node.mk b1 b2 (.move p d) cs).specBestMoves f =
              (if p.foldBest ((Node.mk b1 b2 (.move p d) cs).specCandidate f m0)
                    (rest.map ((Node.mk b1 b2 (.move p d) cs).specCandidate f)) =
                  (Node.mk b1 b2 (.move p d) cs).specCandidate f m0
                then [m0] else []) ++
              rest.filter (fun m => (Node.mk b1 b2 (.move p d) cs).specCandidate f m ==
                p.foldBest ((Node.mk b1 b2 (.move p d) cs).specCandidate f m0)
                  (rest.map ((Node.mk b1 b2 (.move p d) cs).specCandidate f))) := by
            unfold Node.specBestMoves
            rw [hmoves, hbv, List.filter_cons]
            by_cases hc0 : (Node.mk b1 b2 (.move p d) cs).specCandidate f m0 =
                p.foldBest ((Node.mk b1 b2 (.move p d) cs).specCandidate f m0)
                  (rest.map ((Node.mk b1 b2 (.move p d) cs).specCandidate f))
            · rw [if_pos (beq_iff_eq.2 hc0), if_pos hc0.symm]
              rfl
            · rw [if_neg (fun h => hc0 (beq_iff_eq.1 h)),
                if_neg (fun h => hc0 h.symm)]
              rfl
          rw [hbv, hbm]
          simp [Node.children_mk, hcs]

end Knucklebones

namespace Knucklebones

theorem Node.wellBuilt_move_intro {b1 b2 : Board} {p : Player} {d : Die} {cs : List Node}
    (hgo : (Node.mk b1 b2 (.move p d) cs).isGameOver = false)
    (hlen : (Node.mk b1 b2 (.move p d) cs).legalMovesList.length = cs.length)
    (hfa : List.Forall₂ (fun m c =>
        ((match (Node.mk b1 b2 (.move p d) cs).withMoveMade m with
          | some (.ok e) => c.equalsUpToChildren e
          | _ => false) && c.wellBuilt) = true)
      (Node.mk b1 b2 (.move p d) cs).legalMovesList cs) :
    (Node.mk b1 b2 (.move p d) cs).wellBuilt = true := by
  rw [Node.wellBuilt]
  simp only [Bool.or_eq_true]
  right
  simp only [Bool.and_eq_true, Bool.not_eq_true', beq_iff_eq]
  exact ⟨⟨hgo, hlen⟩,
    (all_zip_attach_forall₂
      (fun m c =>
        (match (Node.mk b1 b2 (.move p d) cs).withMoveMade m with
         | some (.ok e) => c.equalsUpToChildren e
         | _ => false) && c.wellBuilt)
      (Node.mk b1 b2 (.move p d) cs).legalMovesList cs hlen).2 hfa⟩

theorem Node.wellBuilt_roll_leaf {b1 b2 : Board} {p : Player}
    (hgo : (Node.mk b1 b2 (.roll p) []).isGameOver = true) :
    (Node.mk b1 b2 (.roll p) []).wellBuilt = true := by
  rw [Node.wellBuilt]
  simp [hgo]

/-- C1: on every well-built non-leaf Move node (children expanded by the
builder) and every objective `f`, `get_next_moves_and_evaluation` returns
exactly the claimed minimax answer: each legal move (up to row symmetry)
gets candidate `f(child)` when the stored child is terminal and otherwise
the unweighted arithmetic mean of the recursive values of the child's roll
children; the returned evaluation is the maximum of the candidates for
Player 1 and the minimum for Player 2; and the returned move list is
exactly the tying moves, in enumeration order. -/
theorem c1_evaluator_minimax (f : Node → Rat) (n : Node)
    (hwb : n.wellBuilt = true) (p : Player) (d : Die)
    (ht : n.nodeType = NodeType.move p d) (hne : n.children ≠ []) :
    Node.getNextMovesAndEvaluation f n =
      .ok (n.specBestMoves f, .fin (n.specBestValue f)) := by
  rw [gnme_wellBuilt f n hwb p d ht,
    if_neg (fun hI => hne (List.isEmpty_iff.1 hI))]

/-- Witness for C1: a concrete well-built one-move tree (one empty square
for Player 1, so the single child is terminal). -/
theorem c1_evaluator_minimax_witness :
    (Node.mk nearlyOnesBoard twoBoard (NodeType.move Player.player1 Die.one)
        [Node.mk onesBoard twoBoard (NodeType.roll Player.player2) []]).wellBuilt = true ∧
    (Node.mk nearlyOnesBoard twoBoard (NodeType.move Player.player1 Die.one)
        [Node.mk onesBoard twoBoard (NodeType.roll Player.player2) []]).nodeType =
      NodeType.move Player.player1 Die.one ∧
    (Node.mk nearlyOnesBoard twoBoard (NodeType.move Player.player1 Die.one)
        [Node.mk onesBoard twoBoard (NodeType.roll Player.player2) []]).children ≠ [] ∧
    Node.getNextMovesAndEvaluation
        (fun g => ((g.getPlayerBoard Player.player1).sum : Rat))
        (Node.mk nearlyOnesBoard twoBoard (NodeType.move Player.player1 Die.one)
          [Node.mk onesBoard twoBoard (NodeType.roll Player.player2) []]) =
      .ok ((Node.mk nearlyOnesBoard twoBoard (NodeType.move Player.player1 Die.one)
          [Node.mk onesBoard twoBoard (NodeType.roll Player.player2) []]).specBestMoves
            (fun g => ((g.getPlayerBoard Player.player1).sum : Rat)),
        .fin ((Node.mk nearlyOnesBoard twoBoard (NodeType.move Player.player1 Die.one)
          [Node.mk onesBoard twoBoard (NodeType.roll Player.player2) []]).specBestValue
            (fun g => ((g.getPlayerBoard Player.player1).sum : Rat)))) := by
  have hchild : (Node.mk onesBoard twoBoard (NodeType.roll Player.player2) []).wellBuilt = true :=
    Node.wellBuilt_roll_leaf (by decide)
  have hwb : (Node.mk nearlyOnesBoard twoBoard (NodeType.move Player.player1 Die.one)
      [Node.mk onesBoard twoBoard (NodeType.roll Player.player2) []]).wellBuilt = true := by
    refine Node.wellBuilt_move_intro (by decide) (by decide) ?_
    have hlm : (Node.mk nearlyOnesBoard twoBoard (NodeType.move Player.player1 Die.one)
        [Node.mk onesBoard twoBoard (NodeType.roll Player.player2) []]).legalMovesList =
        [Move.mk 2 2] := by decide
    rw [hlm]
    refine List.Forall₂.cons ?_ List.Forall₂.nil
    rw [Bool.and_eq_true]
    exact ⟨by decide, hchild⟩
  refine ⟨hwb, rfl, by simp [Node.children_mk], ?_⟩
  exact c1_evaluator_minimax _ _ hwb Player.player1 Die.one rfl
    (by simp [Node.children_mk])

end Knucklebones
